import Mathlib

/-!
Verification development for the fboss switch-agent fragments:
the RIB→FIB projection (fboss/agent/rib/ForwardingInformationBaseUpdater.cpp),
the route walkers (fboss/agent/FibHelpers.h), and the neighbor-cache entry
state machine (fboss/agent/NeighborCacheEntry.h).

Conventions of the shallow embedding:
- C++ ordered maps (NetworkToRouteMap, ForwardingInformationBase's
  NodeContainer, ForwardingInformationBaseMap) are modelled as association
  lists in iteration order; the map invariant "no two entries share a key"
  becomes an explicit NodupKeys hypothesis.
- shared_ptr object identity is modelled by a `uid` field on route nodes and
  a `gen` field on the switch-state root: cloning allocates a uid that is
  fresh with respect to the prior FIB, and producing a new state root bumps
  `gen`.  Returning the very input value models returning the same object.
- next-hop sets are modelled as their ordered element lists.
- C++ exceptions (FbossError) become `Except String`.
-/

set_option maxHeartbeats 1000000

namespace Fboss

/-! ## Generic association-list maps

`alookup` models `std::map::find` / `getNodeIf` on maps represented as
key-value lists in iteration order; `NodupKeys` is the map key-uniqueness
invariant. -/

def alookup {κ ν : Type} [DecidableEq κ] : List (κ × ν) → κ → Option ν
  | [], _ => none
  | e :: rest, k => if e.1 = k then some e.2 else alookup rest k

abbrev NodupKeys {κ ν : Type} (l : List (κ × ν)) : Prop :=
  (l.map Prod.fst).Nodup

/-! ## Route and prefix model

From fboss/agent/state/RouteTypes.h and the route types used by
ForwardingInformationBaseUpdater.cpp.  The C++ name RoutePrefix is shortened
to RoutePfx (prefix is a Lean keyword); the field names follow the source. -/

/-- Model of RoutePrefix of AddrT: (network, mask). -/
structure RoutePfx (α : Type) where
  network : α
  mask : Nat
deriving DecidableEq, Repr

/-- Model of RouteNextHopEntry::Action. -/
inductive RouteAction where
  | DROP
  | TO_CPU
  | NEXTHOPS
deriving DecidableEq, Repr

/-- Model of ResolvedNextHop: (addr, interface-id, weight). -/
structure ResolvedNextHop (α : Type) where
  addr : α
  intf : Nat
  weight : Nat
deriving DecidableEq, Repr

/-- Model of RouteNextHopEntry: an action, an admin distance, and the
next-hop set (modelled as its ordered element list; it is only relevant for
action NEXTHOPS). -/
structure RouteNextHopEntry (α : Type) where
  action : RouteAction
  adminDistance : Nat
  nhopSet : List (ResolvedNextHop α)
deriving DecidableEq, Repr

/-- Model of a rib::Route of AddrT as consumed by createUpdatedFib: carries
its prefix, the selected forwardInfo, classID, connected and resolved flags. -/
structure RibRoute (α : Type) where
  pfx : RoutePfx α
  forwardInfo : RouteNextHopEntry α
  classID : Option Nat
  connected : Bool
  resolved : Bool
deriving DecidableEq, Repr

/-- Model of a FIB-side fboss::Route of AddrT.  The `uid` field models
shared_ptr object identity: two route nodes are the same object exactly when
the models are equal including `uid`. -/
structure FibRoute (α : Type) where
  pfx : RoutePfx α
  forwardInfo : RouteNextHopEntry α
  classID : Option Nat
  connected : Bool
  resolved : Bool
  uid : Nat
deriving DecidableEq, Repr

/-- Model of NetworkToRouteMap of AddrT: the RIB for one (VRF, family), as
the ordered key-value list it is iterated as. -/
abbrev Rib (α : Type) : Type := List (RoutePfx α × RibRoute α)

/-- Model of ForwardingInformationBase of AddrT's NodeContainer: ordered map
prefix → route, as its ordered key-value list. -/
abbrev Fib (α : Type) : Type := List (RoutePfx α × FibRoute α)

/-! ## ForwardingInformationBaseUpdater (fboss/agent/rib/ForwardingInformationBaseUpdater.cpp) -/

/-- Model of ForwardingInformationBaseUpdater::toFibNextHop.  DROP and TO_CPU
construct a fresh entry from the action and admin distance only; NEXTHOPS
copies the next-hop set (each rib next hop maps to a ResolvedNextHop with the
same addr, interface and weight, so the set is carried over unchanged in this
model). -/
def toFibNextHop {α : Type} (ribNextHopEntry : RouteNextHopEntry α) :
    RouteNextHopEntry α :=
  match ribNextHopEntry.action with
  | .DROP => ⟨.DROP, ribNextHopEntry.adminDistance, []⟩
  | .TO_CPU => ⟨.TO_CPU, ribNextHopEntry.adminDistance, []⟩
  | .NEXTHOPS =>
      ⟨.NEXTHOPS, ribNextHopEntry.adminDistance, ribNextHopEntry.nhopSet⟩

/-- Model of ForwardingInformationBaseUpdater::toFibRoute.  `freshUid` is the
identity of the newly allocated node.  With a prior route we clone it (all
fields retained) and then setResolved(toFibNextHop ...), setConnected() when
the rib route is connected (setConnected only sets the flag; modelled from
the spec: Route's mutators are not under src/), and updateClassID.  Without
a prior route a fresh Route(prefix) is built the same way. -/
def toFibRoute {α : Type} (ribRoute : RibRoute α)
    (curFibRoute : Option (FibRoute α)) (freshUid : Nat) : FibRoute α :=
  match curFibRoute with
  | some cur =>
      { cur with
        forwardInfo := toFibNextHop ribRoute.forwardInfo
        resolved := true
        connected := cur.connected || ribRoute.connected
        classID := ribRoute.classID
        uid := freshUid }
  | none =>
      { pfx := ribRoute.pfx
        forwardInfo := toFibNextHop ribRoute.forwardInfo
        resolved := true
        connected := ribRoute.connected
        classID := ribRoute.classID
        uid := freshUid }

/-- Largest uid present in a FIB; fresh uids are drawn above it. -/
def maxUid {α : Type} : Fib α → Nat
  | [] => 0
  | e :: rest => max e.2.uid (maxUid rest)

/-- Model of the first loop of createUpdatedFib, iterating the rib in order:
returns the built NodeContainer, the `updated` flag as set by this loop, and
the next fresh uid.  Unresolved routes are skipped; a resolved route reuses
the prior FIB route when classID and projected forwardInfo agree and
otherwise emplaces a toFibRoute clone. -/
def updatedFibMap {α : Type} [DecidableEq α] (fib : Fib α) :
    Rib α → Nat → Fib α × Bool × Nat
  | [], ctr => ([], false, ctr)
  | (p, ribRoute) :: rest, ctr =>
      if ribRoute.resolved then
        match alookup fib p with
        | some fibRoute =>
            if fibRoute.classID = ribRoute.classID ∧
                toFibNextHop ribRoute.forwardInfo = fibRoute.forwardInfo then
              let (m, upd, ctr') := updatedFibMap fib rest ctr
              ((p, fibRoute) :: m, upd, ctr')
            else
              let fr := toFibRoute ribRoute (some fibRoute) ctr
              let (m, _, ctr') := updatedFibMap fib rest (ctr + 1)
              ((p, fr) :: m, true, ctr')
        | none =>
            let fr := toFibRoute ribRoute none ctr
            let (m, _, ctr') := updatedFibMap fib rest (ctr + 1)
            ((p, fr) :: m, true, ctr')
      else
        updatedFibMap fib rest ctr

/-- The NodeContainer built by createUpdatedFib's first loop, with fresh uids
starting above every uid of the prior FIB. -/
def createUpdatedFibMap {α : Type} [DecidableEq α] (rib : Rib α)
    (fib : Fib α) : Fib α :=
  (updatedFibMap fib rib (maxUid fib + 1)).1

/-- Model of ForwardingInformationBaseUpdater::createUpdatedFib.  After the
first loop, the deleted-route check sets `updated` when some prior FIB entry
has no exact match in the rib; a new FIB node is returned only when
`updated`, and nullptr (none) otherwise. -/
def createUpdatedFib {α : Type} [DecidableEq α] (rib : Rib α) (fib : Fib α) :
    Option (Fib α) :=
  if (updatedFibMap fib rib (maxUid fib + 1)).2.1
      || fib.any (fun e => (alookup rib e.1).isNone)
    then some (updatedFibMap fib rib (maxUid fib + 1)).1
    else none

/-! ### Properties of createUpdatedFib -/

/-- The value createUpdatedFib stores for a resolved rib route at key `p`,
as a function of the prior FIB and the uid `u` used if a clone is made. -/
def fibValue {α : Type} [DecidableEq α] (fib : Fib α) (p : RoutePfx α)
    (r : RibRoute α) (u : Nat) : FibRoute α :=
  match alookup fib p with
  | some prior =>
      if prior.classID = r.classID ∧
          toFibNextHop r.forwardInfo = prior.forwardInfo then prior
      else toFibRoute r (some prior) u
  | none => toFibRoute r none u

/-! ## SwitchState and ForwardingInformationBaseUpdater::operator() -/

/-- IPv4 addresses are modelled as Nat. -/
abbrev AddrV4 : Type := Nat

/-- IPv6 addresses: a wrapper type distinct from AddrV4. -/
structure AddrV6 where
  val : Nat
deriving DecidableEq, Repr

/-- Model of ForwardingInformationBaseContainer: the V4 and V6 FIBs of one
VRF. -/
structure FibContainer where
  fibV4 : Fib AddrV4
  fibV6 : Fib AddrV6
deriving DecidableEq, Repr

/-- Model of the SwitchState parts touched by the updater: the RouterID →
FibContainer map of getFibs() as an association list, plus a root `gen`
number modelling root object identity (modify() clones the path to the
root, so any updated state is a new object; returning the input state keeps
`gen`). -/
structure SwitchState where
  fibs : List (Nat × FibContainer)
  gen : Nat
deriving DecidableEq, Repr

/-- Model of ForwardingInformationBaseUpdater's fields: the VRF and the two
rib snapshots. -/
structure FibUpdater where
  vrf : Nat
  v4NetworkToRoute : Rib AddrV4
  v6NetworkToRoute : Rib AddrV6
deriving DecidableEq, Repr

/-- The state produced by modify() plus the fibV4/fibV6 writes: the VRF's
container is replaced by one holding the new FIBs (none keeps the old one)
and the root is a fresh object (gen + 1). -/
def updateContainer (vrf : Nat) (n4 : Option (Fib AddrV4))
    (n6 : Option (Fib AddrV6)) (s : SwitchState) : SwitchState :=
  { fibs := s.fibs.map (fun e =>
      if e.1 = vrf then
        (e.1, { fibV4 := n4.getD e.2.fibV4, fibV6 := n6.getD e.2.fibV6 })
      else e)
    gen := s.gen + 1 }

/-- Model of ForwardingInformationBaseUpdater::operator()(state).  The CHECK
on the missing FibContainer is modelled as `none`.  When neither family
produced a new FIB the very input state is returned. -/
def applyFibUpdater (u : FibUpdater) (s : SwitchState) : Option SwitchState :=
  match alookup s.fibs u.vrf with
  | none => none
  | some prev =>
      if createUpdatedFib u.v4NetworkToRoute prev.fibV4 = none ∧
          createUpdatedFib u.v6NetworkToRoute prev.fibV6 = none
        then some s
        else some (updateContainer u.vrf
          (createUpdatedFib u.v4NetworkToRoute prev.fibV4)
          (createUpdatedFib u.v6NetworkToRoute prev.fibV6) s)

/-- Claim C2's hypothesis for one family, stated on the code's data: every
resolved rib route has a prior FIB entry with equal classID and equal
projected forwardInfo (no new or changed entry would be introduced), and
every prior FIB entry corresponds to a resolved rib route (no prior entry
is absent from the rib's resolved set). -/
def NoopCond {α : Type} [DecidableEq α] (rib : Rib α) (fib : Fib α) : Prop :=
  (∀ p r, (p, r) ∈ rib → r.resolved = true →
    ∃ prior, alookup fib p = some prior ∧ prior.classID = r.classID ∧
      toFibNextHop r.forwardInfo = prior.forwardInfo) ∧
  (∀ p fr, (p, fr) ∈ fib → ∃ r, (p, r) ∈ rib ∧ r.resolved = true)

/-- Concrete inputs used by the witness theorems. -/
def c1ribW : Rib Nat := [(⟨10, 8⟩, ⟨⟨10, 8⟩, ⟨.DROP, 10, []⟩, none, false, true⟩)]

def c1fibW : Fib Nat := []

def c1outW : Fib Nat := [(⟨10, 8⟩, ⟨⟨10, 8⟩, ⟨.DROP, 10, []⟩, none, false, true, 1⟩)]

def c2updW : FibUpdater := ⟨0, [(⟨10, 8⟩, ⟨⟨10, 8⟩, ⟨.DROP, 10, []⟩, none, false, true⟩)], []⟩

def c2stateW : SwitchState := ⟨[(0, ⟨[], []⟩)], 0⟩

def c2prevW : FibContainer := ⟨[], []⟩

def c3pW : RoutePfx Nat := ⟨10, 8⟩

def c3rW : RibRoute Nat := ⟨c3pW, ⟨.DROP, 10, []⟩, none, false, true⟩

def c3priorW : FibRoute Nat := ⟨c3pW, ⟨.DROP, 10, []⟩, some 7, true, true, 5⟩

def c3ribW : Rib Nat := [(c3pW, c3rW)]

def c3fibW : Fib Nat := [(c3pW, c3priorW)]

/-! ## State delta model

Modelled from the spec: StateDelta and the per-collection DeltaValue
iteration are not under src/.  The spec describes a zipper over two map
snapshots whose items are (old?, new?) pairs, where absence encodes add or
remove, both-present encodes change, and identity-equal entries are
skipped. -/

/-- Modelled from the spec: delta items contributed by keys of the old map:
removed when absent from the new map, changed when present with a different
value, skipped when unchanged. -/
def adeltaOld {κ ν : Type} [DecidableEq κ] [DecidableEq ν]
    (old new : List (κ × ν)) : List (κ × Option ν × Option ν) :=
  old.filterMap (fun e =>
    match alookup new e.1 with
    | none => some (e.1, some e.2, none)
    | some n => if e.2 = n then none else some (e.1, some e.2, some n))

/-- Modelled from the spec: delta items contributed by keys only in the new
map (added). -/
def adeltaNew {κ ν : Type} [DecidableEq κ] [DecidableEq ν]
    (old new : List (κ × ν)) : List (κ × Option ν × Option ν) :=
  new.filterMap (fun e =>
    if (alookup old e.1).isSome then none else some (e.1, none, some e.2))

/-- Modelled from the spec: the delta stream over two map snapshots. -/
def adelta {κ ν : Type} [DecidableEq κ] [DecidableEq ν]
    (old new : List (κ × ν)) : List (κ × Option ν × Option ν) :=
  adeltaOld old new ++ adeltaNew old new

/-- Number of callbacks a per-prefix diff owes one key: none when both sides
agree (including both absent), one otherwise. -/
def diffCount {ν : Type} [DecidableEq ν] : Option ν → Option ν → Nat
  | none, none => 0
  | some o, some n => if o = n then 0 else 1
  | _, _ => 1

/-! ## Route walkers (fboss/agent/FibHelpers.h), standalone-RIB branch -/

/-- Callback events emitted by forEachChangedRoute of AddrT: the callback
kind, the VRF, the map key (the route's prefix) and the route argument(s). -/
inductive REvent (α : Type) where
  | added (rid : Nat) (p : RoutePfx α) (route : FibRoute α)
  | removed (rid : Nat) (p : RoutePfx α) (route : FibRoute α)
  | changed (rid : Nat) (p : RoutePfx α) (oldRoute newRoute : FibRoute α)
deriving DecidableEq, Repr

def reRid {α : Type} : REvent α → Nat
  | .added rid _ _ => rid
  | .removed rid _ _ => rid
  | .changed rid _ _ _ => rid

def rePfx {α : Type} : REvent α → RoutePfx α
  | .added _ p _ => p
  | .removed _ p _ => p
  | .changed _ p _ _ => p

/-- Model of the processRoutesDelta lambda: one callback per route delta
item — addedFn when the old route is absent, removedFn when the new route
is absent, changedFn when both are present.  (A delta item never has both
sides absent; such junk items produce no event.) -/
def processRoutesDelta {α : Type} (rid : Nat)
    (routesDelta : List (RoutePfx α × Option (FibRoute α) × Option (FibRoute α))) :
    List (REvent α) :=
  routesDelta.filterMap (fun d =>
    match d.2.1, d.2.2 with
    | none, some n => some (.added rid d.1 n)
    | some o, none => some (.removed rid d.1 o)
    | some o, some n => some (.changed rid d.1 o n)
    | none, none => none)

/-- Events emitted for one FibContainer delta item: when the new container
is absent, removedFn fires for every route of the old container's FIB
(the removeAll lambda); otherwise the route-level delta is processed, with
an absent old container contributing an empty old FIB. -/
def containerEvents {α : Type} [DecidableEq α] (sel : FibContainer → Fib α)
    (x : Nat × Option FibContainer × Option FibContainer) : List (REvent α) :=
  match x.2.2 with
  | none =>
      match x.2.1 with
      | some oc => (sel oc).map (fun pr => .removed x.1 pr.1 pr.2)
      | none => []
  | some nc =>
      processRoutesDelta x.1
        (adelta (match x.2.1 with | some oc => sel oc | none => []) (sel nc))

/-- Model of forEachChangedRoute of AddrT (standalone-RIB branch): iterate
the FibContainer delta of the state delta; `sel` selects the family's FIB
(getFib of AddrT) from a container. -/
def forEachChangedRouteFam {α : Type} [DecidableEq α]
    (sel : FibContainer → Fib α) (old new : List (Nat × FibContainer)) :
    List (REvent α) :=
  (adelta old new).flatMap (containerEvents sel)

/-- The route stored for (rid, p) in a fibs map, through `sel`. -/
def routeAt {α : Type} [DecidableEq α] (sel : FibContainer → Fib α)
    (fibs : List (Nat × FibContainer)) (rid : Nat) (p : RoutePfx α) :
    Option (FibRoute α) :=
  match alookup fibs rid with
  | none => none
  | some c => alookup (sel c) p

/-- Soundness condition of one emitted event with respect to the two
snapshots: the callback kind agrees with the two lookups at its key. -/
def eventOK {α : Type} [DecidableEq α] (sel : FibContainer → Fib α)
    (old new : List (Nat × FibContainer)) (ev : REvent α) : Prop :=
  match ev with
  | .added rid p n =>
      routeAt sel old rid p = none ∧ routeAt sel new rid p = some n
  | .removed rid p o =>
      routeAt sel old rid p = some o ∧ routeAt sel new rid p = none
  | .changed rid p o n =>
      routeAt sel old rid p = some o ∧ routeAt sel new rid p = some n ∧ o ≠ n

/-! ## forAllRoutes and the untyped forEachChangedRoute (family order) -/

/-- A callback invocation of forAllRoutes: func(rid, route), tagged by the
address family of the visited FIB. -/
inductive Visit where
  | v4 (rid : Nat) (route : FibRoute AddrV4)
  | v6 (rid : Nat) (route : FibRoute AddrV6)
deriving DecidableEq, Repr

def visitRid : Visit → Nat
  | .v4 rid _ => rid
  | .v6 rid _ => rid

def visitIsV4 : Visit → Bool
  | .v4 _ _ => true
  | .v6 _ _ => false

/-- Model of forAllRoutes (standalone-RIB branch): for each FibContainer in
order, visit every route of getFibV6() and then every route of
getFibV4(). -/
def forAllRoutes : List (Nat × FibContainer) → List Visit
  | [] => []
  | e :: rest =>
      e.2.fibV6.map (fun pr => Visit.v6 e.1 pr.2) ++
      (e.2.fibV4.map (fun pr => Visit.v4 e.1 pr.2) ++ forAllRoutes rest)

/-- An event of the untyped forEachChangedRoute, tagged by family. -/
inductive UEvent where
  | u4 (ev : REvent AddrV4)
  | u6 (ev : REvent AddrV6)
deriving DecidableEq, Repr

def uIsV4 : UEvent → Bool
  | .u4 _ => true
  | .u6 _ => false

/-- Model of the untyped forEachChangedRoute: it runs the V4 instantiation
to completion and then the V6 instantiation. -/
def forEachChangedRouteUntyped (old new : List (Nat × FibContainer)) :
    List UEvent :=
  (forEachChangedRouteFam (fun c => c.fibV4) old new).map UEvent.u4 ++
  (forEachChangedRouteFam (fun c => c.fibV6) old new).map UEvent.u6

/-- Concrete container maps for the C4 and C9 witnesses. -/
def c4oldW : List (Nat × FibContainer) :=
  [(0, ⟨[(⟨10, 8⟩, ⟨⟨10, 8⟩, ⟨.DROP, 10, []⟩, none, false, true, 1⟩)], []⟩)]

def c4newW : List (Nat × FibContainer) := []

def c9fibsW : List (Nat × FibContainer) :=
  [(0, ⟨[(⟨10, 8⟩, ⟨⟨10, 8⟩, ⟨.DROP, 10, []⟩, none, false, true, 1⟩)],
        [(⟨⟨32⟩, 64⟩, ⟨⟨⟨32⟩, 64⟩, ⟨.TO_CPU, 5, []⟩, none, false, true, 2⟩)]⟩)]

/-! ## Neighbor cache entry state machine (fboss/agent/NeighborCacheEntry.h)

The entry is driven by its own AsyncTimeout on the cache's EventBase.  The
cache collaborators it reads are modelled as parameters: `hit` is the value
isHit(ip) returns, `rand` the value folly::Random::rand32(base) returns,
and NConfig the cache's configured constants (modelled from the spec:
NeighborCache itself is not under src/).  Probe emissions (probeFor) are
counted in the second component of each result. -/

/-- Model of NeighborEntryState (UNINITIALIZED shortened to UNINIT). -/
inductive NState where
  | UNINIT
  | INCOMPLETE
  | DELAY
  | PROBE
  | STALE
  | REACHABLE
  | EXPIRED
deriving DecidableEq, Repr

/-- Modelled from the spec: the cache constants the entry reads —
getMaxNeighborProbes(), getStaleEntryInterval() (seconds) and
getBaseTimeout() (seconds). -/
structure NConfig where
  maxProbes : Nat
  staleInterval : Nat
  baseTimeoutSecs : Nat
deriving DecidableEq, Repr

/-- Model of a NeighborCacheEntry: its state, probesLeft, and the pending
AsyncTimeout (some t, in milliseconds, when scheduled — folly's
scheduleTimeout replaces any pending timeout, so at most one exists). -/
structure NEntry where
  state : NState
  probesLeft : Nat
  scheduled : Option Nat
deriving DecidableEq, Repr

/-- Model of calculateLifetime: base = getBaseTimeout().count() * 1000;
lifetime = rand32(base) + base / 2, where `rand` stands for the draw
rand32(base) (a uniform value below base). -/
def calculateLifetime (cfg : NConfig) (rand : Nat) : Nat :=
  rand + (cfg.baseTimeoutSecs * 1000) / 2

/-- Model of scheduleNextUpdate: schedule by state; EXPIRED schedules
nothing; DELAY and UNINITIALIZED throw FbossError. -/
def scheduleNextUpdate (cfg : NConfig) (rand : Nat) (e : NEntry) :
    Except String NEntry :=
  match e.state with
  | .REACHABLE => .ok { e with scheduled := some (calculateLifetime cfg rand) }
  | .STALE => .ok { e with scheduled := some (cfg.staleInterval * 1000) }
  | .PROBE => .ok { e with scheduled := some 1000 }
  | .INCOMPLETE => .ok { e with scheduled := some 1000 }
  | .EXPIRED => .ok e
  | .DELAY => .error "Invalid change of cache entry state."
  | .UNINIT => .error "Invalid change of cache entry state."

/-- Model of probeIfProbesLeft: emit probeFor and decrement when probes
remain, else become EXPIRED. -/
def probeIfProbesLeft (e : NEntry) : NEntry × Nat :=
  if e.probesLeft > 0 then ({ e with probesLeft := e.probesLeft - 1 }, 1)
  else ({ e with state := .EXPIRED }, 0)

/-- Model of probeStaleEntryIfHit: on a hardware hit, move to PROBE and
probe; otherwise stay. -/
def probeStaleEntryIfHit (hit : Bool) (e : NEntry) : NEntry × Nat :=
  if hit then probeIfProbesLeft { e with state := .PROBE } else (e, 0)

/-- Model of runStateMachine. -/
def runStateMachine (hit : Bool) (e : NEntry) : Except String (NEntry × Nat) :=
  match e.state with
  | .INCOMPLETE => .ok (probeIfProbesLeft e)
  | .PROBE => .ok (probeIfProbesLeft e)
  | .STALE => .ok (probeStaleEntryIfHit hit e)
  | .REACHABLE => .ok (probeStaleEntryIfHit hit { e with state := .STALE })
  | .EXPIRED => .error "Found NeighborCacheEntry with invalid state"
  | .DELAY => .error "Found NeighborCacheEntry with invalid state"
  | .UNINIT => .error "Found NeighborCacheEntry with invalid state"

/-- Model of process(): a no-op when a timeout is already scheduled;
otherwise run the state machine and, unless EXPIRED, schedule the next
update. -/
def process (cfg : NConfig) (hit : Bool) (rand : Nat) (e : NEntry) :
    Except String (NEntry × Nat) :=
  if e.scheduled.isSome then .ok (e, 0)
  else
    match runStateMachine hit e with
    | .error msg => .error msg
    | .ok (e1, n) =>
        if e1.state ≠ .EXPIRED then
          match scheduleNextUpdate cfg rand e1 with
          | .error msg => .error msg
          | .ok e2 => .ok (e2, n)
        else .ok (e1, n)

/-- A timer expiry: the pending timeout fires (clearing it) and
timeoutExpired leads the cache to call process() on the entry. -/
def timerTick (cfg : NConfig) (hit : Bool) (rand : Nat) (e : NEntry) :
    Except String (NEntry × Nat) :=
  process cfg hit rand { e with scheduled := none }

/-- The probesLeft assignment made by enter()'s switch for each entry
state; none for the states enter() rejects. -/
def enterProbesLeft (cfg : NConfig) : NState → Option Nat
  | .INCOMPLETE => some (cfg.maxProbes - 1)
  | .REACHABLE => some cfg.maxProbes
  | .STALE => some cfg.maxProbes
  | _ => none

/-- Model of enter(state): set the state, assign probesLeft per the switch
(running the state machine right away for STALE), throw for PROBE, DELAY,
UNINITIALIZED and EXPIRED, then schedule the next update. -/
def enter (cfg : NConfig) (hit : Bool) (rand : Nat) (s : NState)
    (e : NEntry) : Except String (NEntry × Nat) :=
  match enterProbesLeft cfg s with
  | none => .error "Tried to create entry with invalid state"
  | some pl =>
      if s = .STALE then
        match runStateMachine hit { e with state := s, probesLeft := pl } with
        | .error msg => .error msg
        | .ok (e2, n) =>
            match scheduleNextUpdate cfg rand e2 with
            | .error msg => .error msg
            | .ok e3 => .ok (e3, n)
      else
        match scheduleNextUpdate cfg rand
            { e with state := s, probesLeft := pl } with
        | .error msg => .error msg
        | .ok e3 => .ok (e3, 0)

/-- Model of the constructors: fields initialized (probesLeft_ starts at
getMaxNeighborProbes(), state at UNINITIALIZED, no timeout pending), then
enter(state). -/
def mkEntry (cfg : NConfig) (hit : Bool) (rand : Nat) (s : NState) :
    Except String (NEntry × Nat) :=
  enter cfg hit rand s
    { state := .UNINIT, probesLeft := cfg.maxProbes, scheduled := none }

/-- Iterated timer expirations with no intervening external update,
accumulating emitted probes. -/
def nTicks (cfg : NConfig) (hit : Bool) (rand : Nat) :
    Nat → NEntry → Except String (NEntry × Nat)
  | 0, e => .ok (e, 0)
  | n + 1, e =>
      match timerTick cfg hit rand e with
      | .error msg => .error msg
      | .ok (e1, k) =>
          match nTicks cfg hit rand n e1 with
          | .error msg => .error msg
          | .ok (e2, m) => .ok (e2, k + m)

/-- The entry states reachable through complete operations: construction
with some initial state, a timer expiry (only possible while a timeout is
pending), and an external update (enter on a live, non-EXPIRED entry; the
cache flushes EXPIRED entries). -/
inductive Reachable (cfg : NConfig) : NEntry → Prop where
  | create : ∀ (hit : Bool) (rand : Nat) (s : NState) (e : NEntry) (n : Nat),
      mkEntry cfg hit rand s = .ok (e, n) → Reachable cfg e
  | tick : ∀ (hit : Bool) (rand t : Nat) (e e' : NEntry) (n : Nat),
      Reachable cfg e → e.scheduled = some t →
      timerTick cfg hit rand e = .ok (e', n) → Reachable cfg e'
  | update : ∀ (hit : Bool) (rand : Nat) (s : NState) (e e' : NEntry) (n : Nat),
      Reachable cfg e → e.state ≠ .EXPIRED →
      enter cfg hit rand s e = .ok (e', n) → Reachable cfg e'

/-- Concrete cache configuration and entries for the neighbor witnesses. -/
def ncfgW : NConfig := ⟨3, 30, 30⟩

def c5entW : NEntry := ⟨.INCOMPLETE, 2, some 1000⟩

def c6entW : NEntry := ⟨.REACHABLE, 3, some 15000⟩

def c7entW : NEntry := ⟨.STALE, 3, some 30000⟩

/-! ## Theorems -/

theorem alookup_eq_some_mem {κ ν : Type} [DecidableEq κ] {l : List (κ × ν)}
    {k : κ} {v : ν} (h : alookup l k = some v) : (k, v) ∈ l := by
  induction l with
  | nil => simp [alookup] at h
  | cons e rest ih =>
      obtain ⟨k', v'⟩ := e
      simp only [alookup] at h
      by_cases he : k' = k
      · rw [if_pos he] at h
        cases h
        subst he
        exact List.mem_cons_self _ _
      · rw [if_neg he] at h
        exact List.mem_cons_of_mem _ (ih h)

theorem alookup_eq_none {κ ν : Type} [DecidableEq κ] {l : List (κ × ν)}
    {k : κ} (h : ∀ v, (k, v) ∉ l) : alookup l k = none := by
  induction l with
  | nil => rfl
  | cons e rest ih =>
      obtain ⟨k', v'⟩ := e
      simp only [alookup]
      by_cases he : k' = k
      · exfalso
        subst he
        exact h v' (List.mem_cons_self _ _)
      · rw [if_neg he]
        exact ih (fun v hv => h v (List.mem_cons_of_mem _ hv))

theorem mem_alookup {κ ν : Type} [DecidableEq κ] {l : List (κ × ν)}
    {k : κ} {v : ν} (hnd : NodupKeys l) (hm : (k, v) ∈ l) :
    alookup l k = some v := by
  induction l with
  | nil => cases hm
  | cons e rest ih =>
      obtain ⟨k', v'⟩ := e
      simp only [NodupKeys, List.map_cons, List.nodup_cons] at hnd
      rcases List.mem_cons.mp hm with h | h
      · cases h
        simp [alookup]
      · have hne : k' ≠ k := by
          intro hek
          exact hnd.1 (hek ▸ (List.mem_map.mpr ⟨(k, v), h, rfl⟩))
        simp only [alookup, if_neg hne]
        exact ih hnd.2 h

theorem alookup_isNone_forall {κ ν : Type} [DecidableEq κ] {l : List (κ × ν)}
    {k : κ} (h : alookup l k = none) : ∀ v, (k, v) ∉ l := by
  intro v hv
  induction l with
  | nil => cases hv
  | cons e rest ih =>
      obtain ⟨k', v'⟩ := e
      simp only [alookup] at h
      by_cases he : k' = k
      · rw [if_pos he] at h; cases h
      · rw [if_neg he] at h
        rcases List.mem_cons.mp hv with h' | h'
        · cases h'; exact he rfl
        · exact ih h h'

theorem alookup_isSome_iff {κ ν : Type} [DecidableEq κ] {l : List (κ × ν)}
    {k : κ} : (alookup l k).isSome = true ↔ ∃ v, (k, v) ∈ l := by
  constructor
  · intro h
    rcases Option.isSome_iff_exists.mp h with ⟨v, hv⟩
    exact ⟨v, alookup_eq_some_mem hv⟩
  · intro ⟨v, hv⟩
    cases hlk : alookup l k with
    | some w => rfl
    | none => exact absurd hv (alookup_isNone_forall hlk v)

theorem fibValue_forwardInfo {α : Type} [DecidableEq α] (fib : Fib α)
    (p : RoutePfx α) (r : RibRoute α) (u : Nat) :
    (fibValue fib p r u).forwardInfo = toFibNextHop r.forwardInfo := by
  unfold fibValue
  cases h : alookup fib p with
  | none => rfl
  | some prior =>
      dsimp only
      by_cases hc : prior.classID = r.classID ∧
          toFibNextHop r.forwardInfo = prior.forwardInfo
      · rw [if_pos hc]
        exact hc.2.symm
      · rw [if_neg hc]
        rfl

theorem fibValue_classID {α : Type} [DecidableEq α] (fib : Fib α)
    (p : RoutePfx α) (r : RibRoute α) (u : Nat) :
    (fibValue fib p r u).classID = r.classID := by
  unfold fibValue
  cases h : alookup fib p with
  | none => rfl
  | some prior =>
      dsimp only
      by_cases hc : prior.classID = r.classID ∧
          toFibNextHop r.forwardInfo = prior.forwardInfo
      · rw [if_pos hc]
        exact hc.1
      · rw [if_neg hc]
        rfl

/-- The keys of the built FIB are exactly the keys of the resolved rib
routes, in rib order. -/
theorem updatedFibMap_keys {α : Type} [DecidableEq α] (fib : Fib α)
    (rib : Rib α) (ctr : Nat) :
    (updatedFibMap fib rib ctr).1.map Prod.fst =
      (rib.filter (fun e => e.2.resolved)).map Prod.fst := by
  induction rib generalizing ctr with
  | nil => rfl
  | cons e rest ih =>
      obtain ⟨p, r⟩ := e
      by_cases hres : r.resolved
      · simp only [updatedFibMap, hres, if_pos]
        cases hfib : alookup fib p with
        | some prior =>
            dsimp only
            by_cases hc : prior.classID = r.classID ∧
                toFibNextHop r.forwardInfo = prior.forwardInfo
            · rw [if_pos hc]
              simp only [List.map_cons, List.filter_cons, hres]
              rw [ih]
              simp
            · rw [if_neg hc]
              simp only [List.map_cons, List.filter_cons, hres]
              rw [ih]
              simp
        | none =>
            dsimp only
            simp only [List.map_cons, List.filter_cons, hres]
            rw [ih]
            simp
      · have hres' : r.resolved = false := by
          cases hr : r.resolved
          · rfl
          · exact absurd hr hres
        have hstep : updatedFibMap fib ((p, r) :: rest) ctr =
            updatedFibMap fib rest ctr := by
          simp [updatedFibMap, hres']
        rw [hstep, ih]
        simp [List.filter_cons, hres']

/-- Lookup in the built FIB of a resolved rib route: the stored value is
`fibValue` for some uid at or above the running counter. -/
theorem updatedFibMap_lookup {α : Type} [DecidableEq α] {fib : Fib α}
    {rib : Rib α} {p : RoutePfx α} {r : RibRoute α} (ctr : Nat)
    (hnd : NodupKeys rib) (hm : (p, r) ∈ rib) (hres : r.resolved = true) :
    ∃ u, ctr ≤ u ∧
      alookup (updatedFibMap fib rib ctr).1 p = some (fibValue fib p r u) := by
  induction rib generalizing ctr with
  | nil => cases hm
  | cons e rest ih =>
      obtain ⟨q, s⟩ := e
      simp only [NodupKeys, List.map_cons, List.nodup_cons] at hnd
      rcases List.mem_cons.mp hm with hh | hh
      · obtain ⟨hpq, hrs⟩ := Prod.mk.injEq .. ▸ hh
        subst hpq; subst hrs
        simp only [updatedFibMap, hres, if_pos]
        cases hfib : alookup fib p with
        | some prior =>
            dsimp only
            by_cases hc : prior.classID = r.classID ∧
                toFibNextHop r.forwardInfo = prior.forwardInfo
            · rw [if_pos hc]
              refine ⟨ctr, le_refl _, ?_⟩
              rw [show fibValue fib p r ctr = prior from by
                unfold fibValue; rw [hfib]; dsimp only; rw [if_pos hc]]
              simp [alookup]
            · rw [if_neg hc]
              refine ⟨ctr, le_refl _, ?_⟩
              rw [show fibValue fib p r ctr = toFibRoute r (some prior) ctr from by
                unfold fibValue; rw [hfib]; dsimp only; rw [if_neg hc]]
              simp [alookup]
        | none =>
            dsimp only
            refine ⟨ctr, le_refl _, ?_⟩
            rw [show fibValue fib p r ctr = toFibRoute r none ctr from by
              unfold fibValue; rw [hfib]]
            simp [alookup]
      · have hpq : q ≠ p := by
          intro hqp
          exact hnd.1 (hqp ▸ List.mem_map.mpr ⟨(p, r), hh, rfl⟩)
        by_cases hsres : s.resolved
        · simp only [updatedFibMap, hsres, if_pos]
          cases hfib : alookup fib q with
          | some prior =>
              dsimp only
              by_cases hc : prior.classID = s.classID ∧
                  toFibNextHop s.forwardInfo = prior.forwardInfo
              · rw [if_pos hc]
                rcases ih ctr hnd.2 hh with ⟨u, hu, hl⟩
                exact ⟨u, hu, by simpa only [alookup, if_neg hpq] using hl⟩
              · rw [if_neg hc]
                rcases ih (ctr + 1) hnd.2 hh with ⟨u, hu, hl⟩
                exact ⟨u, le_trans (Nat.le_succ _) hu,
                  by simpa only [alookup, if_neg hpq] using hl⟩
          | none =>
              dsimp only
              rcases ih (ctr + 1) hnd.2 hh with ⟨u, hu, hl⟩
              exact ⟨u, le_trans (Nat.le_succ _) hu,
                by simpa only [alookup, if_neg hpq] using hl⟩
        · simp only [updatedFibMap, hsres, if_neg]
          exact ih ctr hnd.2 hh

/-- A produced FIB is the map built by the first loop. -/
theorem createUpdatedFib_eq_map {α : Type} [DecidableEq α] {rib : Rib α}
    {fib fib' : Fib α} (h : createUpdatedFib rib fib = some fib') :
    fib' = createUpdatedFibMap rib fib := by
  unfold createUpdatedFib at h
  split at h
  · cases h
    rfl
  · cases h

/-- Keys of the produced map are duplicate-free when the rib's are. -/
theorem createUpdatedFibMap_nodup {α : Type} [DecidableEq α] {rib : Rib α}
    (fib : Fib α) (hnd : NodupKeys rib) :
    NodupKeys (createUpdatedFibMap rib fib) := by
  unfold NodupKeys createUpdatedFibMap
  rw [updatedFibMap_keys]
  exact List.Nodup.sublist
    (List.Sublist.map Prod.fst (List.filter_sublist rib)) hnd

/-- When every resolved rib route finds a matching prior FIB route (equal
classID and equal projected forwardInfo), the first loop sets no `updated`
flag. -/
theorem updatedFibMap_flag_false {α : Type} [DecidableEq α] {fib : Fib α}
    {rib : Rib α} (ctr : Nat)
    (h : ∀ p r, (p, r) ∈ rib → r.resolved = true →
      ∃ prior, alookup fib p = some prior ∧ prior.classID = r.classID ∧
        toFibNextHop r.forwardInfo = prior.forwardInfo) :
    (updatedFibMap fib rib ctr).2.1 = false := by
  induction rib generalizing ctr with
  | nil => rfl
  | cons e rest ih =>
      obtain ⟨p, r⟩ := e
      by_cases hres : r.resolved
      · rcases h p r (List.mem_cons_self _ _) hres with ⟨prior, hl, hc1, hc2⟩
        simp only [updatedFibMap, hres, if_pos, hl, if_pos (And.intro hc1 hc2)]
        exact ih ctr (fun p' r' hm hr =>
          h p' r' (List.mem_cons_of_mem _ hm) hr)
      · simp only [updatedFibMap, hres, if_neg]
        exact ih ctr (fun p' r' hm hr =>
          h p' r' (List.mem_cons_of_mem _ hm) hr)

/-- Claim C1 theorem.  Whenever createUpdatedFib produces a FIB, that FIB
holds exactly the resolved rib routes: its size is the number of resolved
rib routes, each resolved rib route appears under its prefix with the
projected forwardInfo, and every entry of the produced FIB corresponds to a
resolved rib route (so no unresolved rib route appears). -/
theorem c1_createUpdatedFib_resolved_exact {α : Type} [DecidableEq α]
    (rib : Rib α) (fib fib' : Fib α) (hnd : NodupKeys rib)
    (h : createUpdatedFib rib fib = some fib') :
    fib'.length = (rib.filter (fun e => e.2.resolved)).length ∧
    (∀ p r, (p, r) ∈ rib → r.resolved = true →
      ∃ fr, alookup fib' p = some fr ∧
        fr.forwardInfo = toFibNextHop r.forwardInfo) ∧
    (∀ p fr, (p, fr) ∈ fib' → ∃ r, (p, r) ∈ rib ∧ r.resolved = true) := by
  have hfib' : fib' = createUpdatedFibMap rib fib := createUpdatedFib_eq_map h
  subst hfib'
  refine ⟨?_, ?_, ?_⟩
  · have hk := updatedFibMap_keys fib rib (maxUid fib + 1)
    have := congrArg List.length hk
    simpa [List.length_map] using this
  · intro p r hm hres
    rcases @updatedFibMap_lookup _ _ fib _ _ _ (maxUid fib + 1) hnd hm hres with
      ⟨u, _, hl⟩
    exact ⟨fibValue fib p r u, hl, fibValue_forwardInfo fib p r u⟩
  · intro p fr hm
    have hp : p ∈ (createUpdatedFibMap rib fib).map Prod.fst :=
      List.mem_map.mpr ⟨(p, fr), hm, rfl⟩
    rw [createUpdatedFibMap, updatedFibMap_keys] at hp
    rcases List.mem_map.mp hp with ⟨e, he, hep⟩
    obtain ⟨q, r⟩ := e
    cases hep
    rcases List.mem_filter.mp he with ⟨hmem, hres⟩
    exact ⟨r, hmem, hres⟩

/-- Lookup of the updated VRF after updateContainer. -/
theorem alookup_map_update (l : List (Nat × FibContainer)) (vrf : Nat)
    (n4 : Option (Fib AddrV4)) (n6 : Option (Fib AddrV6))
    {prev : FibContainer} (h : alookup l vrf = some prev) :
    alookup (l.map (fun e =>
      if e.1 = vrf then
        (e.1, ({ fibV4 := n4.getD e.2.fibV4,
                 fibV6 := n6.getD e.2.fibV6 } : FibContainer))
      else e)) vrf =
      some { fibV4 := n4.getD prev.fibV4, fibV6 := n6.getD prev.fibV6 } := by
  induction l with
  | nil => cases h
  | cons e rest ih =>
      obtain ⟨k, c⟩ := e
      simp only [alookup] at h
      by_cases hk : k = vrf
      · rw [if_pos hk] at h
        cases h
        simp [alookup, hk]
      · rw [if_neg hk] at h
        simp only [List.map_cons, if_neg hk, alookup]
        exact ih h

/-- The deleted-route check passes when every FIB entry has an exact match
in the rib. -/
theorem any_deleted_false {α : Type} [DecidableEq α] {rib : Rib α}
    {fib : Fib α} (h : ∀ e ∈ fib, (alookup rib e.1).isSome = true) :
    (fib.any (fun e => (alookup rib e.1).isNone)) = false := by
  rw [List.any_eq_false]
  intro e he
  simp [Option.isNone_iff_eq_none]
  intro hnone
  have := h e he
  rw [hnone] at this
  cases this

/-- Under NoopCond-style hypotheses, createUpdatedFib returns nullptr. -/
theorem createUpdatedFib_none_of_match {α : Type} [DecidableEq α]
    {rib : Rib α} {fib : Fib α}
    (h1 : ∀ p r, (p, r) ∈ rib → r.resolved = true →
      ∃ prior, alookup fib p = some prior ∧ prior.classID = r.classID ∧
        toFibNextHop r.forwardInfo = prior.forwardInfo)
    (h2 : ∀ e ∈ fib, (alookup rib e.1).isSome = true) :
    createUpdatedFib rib fib = none := by
  unfold createUpdatedFib
  rw [updatedFibMap_flag_false _ h1, any_deleted_false h2]
  rfl

/-- Running createUpdatedFib again on the FIB it has just built finds
nothing to change: the produced map matches the rib exactly. -/
theorem createUpdatedFib_map_none {α : Type} [DecidableEq α] (rib : Rib α)
    (fib : Fib α) (hnd : NodupKeys rib) :
    createUpdatedFib rib (createUpdatedFibMap rib fib) = none := by
  apply createUpdatedFib_none_of_match
  · intro p r hm hres
    rcases @updatedFibMap_lookup _ _ fib _ _ _ (maxUid fib + 1) hnd hm hres with
      ⟨u, _, hl⟩
    exact ⟨fibValue fib p r u, hl,
      (fibValue_classID fib p r u),
      (fibValue_forwardInfo fib p r u).symm⟩
  · intro e he
    have hp : e.1 ∈ (createUpdatedFibMap rib fib).map Prod.fst :=
      List.mem_map.mpr ⟨e, he, rfl⟩
    rw [createUpdatedFibMap, updatedFibMap_keys] at hp
    rcases List.mem_map.mp hp with ⟨e', he', hep⟩
    rcases List.mem_filter.mp he' with ⟨hmem, _⟩
    rw [alookup_isSome_iff]
    exact ⟨e'.2, by rw [← hep]; exact hmem⟩

/-- Claim C2 theorem.  If no new or changed FIB entry would be introduced
and no prior FIB entry is absent from the rib's resolved set, for both
families, then operator() returns its input state unchanged (same root
identity); and independently of that hypothesis, applying the same rib
batch a second time returns the first application's result identically. -/
theorem c2_applyFibUpdater_noop_idempotent (u : FibUpdater) (s : SwitchState)
    (prev : FibContainer) (hprev : alookup s.fibs u.vrf = some prev)
    (hnd4 : NodupKeys u.v4NetworkToRoute)
    (hnd6 : NodupKeys u.v6NetworkToRoute) :
    ((NoopCond u.v4NetworkToRoute prev.fibV4 ∧
      NoopCond u.v6NetworkToRoute prev.fibV6) →
        applyFibUpdater u s = some s) ∧
    (∀ s1, applyFibUpdater u s = some s1 →
      applyFibUpdater u s1 = some s1) := by
  constructor
  · intro ⟨h4, h6⟩
    unfold applyFibUpdater
    rw [hprev]
    dsimp only
    rw [if_pos]
    constructor
    · exact createUpdatedFib_none_of_match h4.1 (fun e he => by
        rcases h4.2 e.1 e.2 he with ⟨r, hm, hres⟩
        rw [alookup_isSome_iff]
        exact ⟨r, hm⟩)
    · exact createUpdatedFib_none_of_match h6.1 (fun e he => by
        rcases h6.2 e.1 e.2 he with ⟨r, hm, hres⟩
        rw [alookup_isSome_iff]
        exact ⟨r, hm⟩)
  · intro s1 h
    unfold applyFibUpdater at h
    rw [hprev] at h
    dsimp only at h
    by_cases hcond : createUpdatedFib u.v4NetworkToRoute prev.fibV4 = none ∧
        createUpdatedFib u.v6NetworkToRoute prev.fibV6 = none
    · rw [if_pos hcond] at h
      cases h
      unfold applyFibUpdater
      rw [hprev]
      dsimp only
      rw [if_pos hcond]
    · rw [if_neg hcond] at h
      cases h
      have hlk := alookup_map_update s.fibs u.vrf
        (createUpdatedFib u.v4NetworkToRoute prev.fibV4)
        (createUpdatedFib u.v6NetworkToRoute prev.fibV6) hprev
      unfold applyFibUpdater
      unfold updateContainer
      dsimp only
      rw [hlk]
      dsimp only
      rw [if_pos]
      constructor
      · cases h4 : createUpdatedFib u.v4NetworkToRoute prev.fibV4 with
        | none => simp [h4]
        | some m4 =>
            have hm4 : m4 = createUpdatedFibMap u.v4NetworkToRoute prev.fibV4 :=
              createUpdatedFib_eq_map h4
            simp only [h4, Option.getD_some]
            rw [hm4]
            exact createUpdatedFib_map_none _ _ hnd4
      · cases h6 : createUpdatedFib u.v6NetworkToRoute prev.fibV6 with
        | none => simp [h6]
        | some m6 =>
            have hm6 : m6 = createUpdatedFibMap u.v6NetworkToRoute prev.fibV6 :=
              createUpdatedFib_eq_map h6
            simp only [h6, Option.getD_some]
            rw [hm6]
            exact createUpdatedFib_map_none _ _ hnd6

/-! ## Claim C3: reuse versus clone, and concrete witness inputs -/

/-- Claim C3 theorem (amended).  For a resolved rib route whose prefix has a
prior FIB route: when the prior's classID equals the rib route's and the
prior's forwardInfo equals the projection, the very prior node is stored
(identity preserved); otherwise the stored node is a clone: a fresh object
(uid above every uid of the prior FIB) keeping the prior's fields but with
the projected forward info and the rib route's class id written, and with
the connected flag set when the rib route is connected and otherwise left
as the prior's (setConnected only sets). -/
theorem c3_createUpdatedFib_reuse_or_clone {α : Type} [DecidableEq α]
    (rib : Rib α) (fib : Fib α) (p : RoutePfx α) (r : RibRoute α)
    (prior : FibRoute α) (hnd : NodupKeys rib) (hm : (p, r) ∈ rib)
    (hres : r.resolved = true) (hprior : alookup fib p = some prior) :
    (prior.classID = r.classID ∧
        toFibNextHop r.forwardInfo = prior.forwardInfo →
      alookup (createUpdatedFibMap rib fib) p = some prior) ∧
    (¬(prior.classID = r.classID ∧
        toFibNextHop r.forwardInfo = prior.forwardInfo) →
      ∃ u, maxUid fib < u ∧
        alookup (createUpdatedFibMap rib fib) p = some
          { pfx := prior.pfx
            forwardInfo := toFibNextHop r.forwardInfo
            classID := r.classID
            connected := prior.connected || r.connected
            resolved := true
            uid := u }) := by
  rcases @updatedFibMap_lookup _ _ fib _ _ _ (maxUid fib + 1) hnd hm hres with
    ⟨u, hu, hl⟩
  constructor
  · intro hc
    rw [createUpdatedFibMap, hl]
    congr 1
    unfold fibValue
    rw [hprior]
    dsimp only
    rw [if_pos hc]
  · intro hc
    refine ⟨u, Nat.lt_of_lt_of_le (Nat.lt_succ_self _) hu, ?_⟩
    rw [createUpdatedFibMap, hl]
    congr 1
    unfold fibValue
    rw [hprior]
    dsimp only
    rw [if_neg hc]
    rfl

/-- Claim C1 witness at a concrete rib and FIB. -/
theorem c1_witness :
    NodupKeys c1ribW ∧ createUpdatedFib c1ribW c1fibW = some c1outW ∧
    (c1outW.length = (c1ribW.filter (fun e => e.2.resolved)).length ∧
    (∀ p r, (p, r) ∈ c1ribW → r.resolved = true →
      ∃ fr, alookup c1outW p = some fr ∧
        fr.forwardInfo = toFibNextHop r.forwardInfo) ∧
    (∀ p fr, (p, fr) ∈ c1outW →
      ∃ r, (p, r) ∈ c1ribW ∧ r.resolved = true)) :=
  ⟨by decide, by decide,
    c1_createUpdatedFib_resolved_exact c1ribW c1fibW c1outW (by decide)
      (by decide)⟩

/-- Claim C2 witness at a concrete updater and state. -/
theorem c2_witness :
    alookup c2stateW.fibs c2updW.vrf = some c2prevW ∧
    NodupKeys c2updW.v4NetworkToRoute ∧ NodupKeys c2updW.v6NetworkToRoute ∧
    (((NoopCond c2updW.v4NetworkToRoute c2prevW.fibV4 ∧
      NoopCond c2updW.v6NetworkToRoute c2prevW.fibV6) →
        applyFibUpdater c2updW c2stateW = some c2stateW) ∧
    (∀ s1, applyFibUpdater c2updW c2stateW = some s1 →
      applyFibUpdater c2updW s1 = some s1)) :=
  ⟨by decide, by decide, by decide,
    c2_applyFibUpdater_noop_idempotent c2updW c2stateW c2prevW (by decide)
      (by decide) (by decide)⟩

/-- Claim C3 counterexample to the claim as stated: at this input the rib
route is not connected and the prior FIB route differs in classID, so a
fresh route is constructed (its uid 6 differs from the prior's 5), yet its
connected flag remains true — the new connected flag (false) is not
written. -/
theorem c3_counterexample :
    alookup (createUpdatedFibMap c3ribW c3fibW) c3pW =
      some ⟨c3pW, ⟨.DROP, 10, []⟩, none, true, true, 6⟩ ∧
    c3rW.connected = false ∧ c3priorW.uid = 5 ∧ c3priorW.connected = true := by
  refine ⟨?_, by decide, by decide, by decide⟩
  decide

/-- Claim C3 witness at the same concrete input. -/
theorem c3_witness :
    NodupKeys c3ribW ∧ (c3pW, c3rW) ∈ c3ribW ∧ c3rW.resolved = true ∧
    alookup c3fibW c3pW = some c3priorW ∧
    ((c3priorW.classID = c3rW.classID ∧
        toFibNextHop c3rW.forwardInfo = c3priorW.forwardInfo →
      alookup (createUpdatedFibMap c3ribW c3fibW) c3pW = some c3priorW) ∧
    (¬(c3priorW.classID = c3rW.classID ∧
        toFibNextHop c3rW.forwardInfo = c3priorW.forwardInfo) →
      ∃ u, maxUid c3fibW < u ∧
        alookup (createUpdatedFibMap c3ribW c3fibW) c3pW = some
          { pfx := c3priorW.pfx
            forwardInfo := toFibNextHop c3rW.forwardInfo
            classID := c3rW.classID
            connected := c3priorW.connected || c3rW.connected
            resolved := true
            uid := u })) :=
  ⟨by decide, by decide, by decide, by decide,
    c3_createUpdatedFib_reuse_or_clone c3ribW c3fibW c3pW c3rW c3priorW
      (by decide) (by decide) (by decide) (by decide)⟩

theorem diffCount_self {ν : Type} [DecidableEq ν] (x : Option ν) :
    diffCount x x = 0 := by
  cases x with
  | none => rfl
  | some v => simp [diffCount]

theorem countP_key_zero {κ ν : Type} [DecidableEq κ] {l : List (κ × ν)}
    {k : κ} (h : alookup l k = none) :
    l.countP (fun e => decide (e.1 = k)) = 0 := by
  rw [List.countP_eq_zero]
  intro e he
  simp only [decide_eq_true_eq]
  intro hek
  exact alookup_isNone_forall h e.2 (by rw [← hek]; exact he)

theorem countP_key {κ ν : Type} [DecidableEq κ] (l : List (κ × ν)) (k : κ)
    (hnd : NodupKeys l) :
    l.countP (fun e => decide (e.1 = k)) =
      if (alookup l k).isSome then 1 else 0 := by
  induction l with
  | nil => rfl
  | cons e rest ih =>
      obtain ⟨k', v'⟩ := e
      simp only [NodupKeys, List.map_cons, List.nodup_cons] at hnd
      by_cases hk : k' = k
      · subst hk
        have hrest : alookup rest k' = none :=
          alookup_eq_none (fun v hv =>
            hnd.1 (List.mem_map.mpr ⟨(k', v), hv, rfl⟩))
        rw [List.countP_cons]
        rw [countP_key_zero hrest]
        simp [alookup]
      · rw [List.countP_cons]
        simp only [decide_eq_true_eq]
        rw [ih hnd.2]
        simp [alookup, hk]

/-- Count of delta items at one key contributed by the old side. -/
theorem countP_adeltaOld {κ ν : Type} [DecidableEq κ] [DecidableEq ν]
    (old new : List (κ × ν)) (k : κ) (hnd : NodupKeys old) :
    (adeltaOld old new).countP (fun e => decide (e.1 = k)) =
      match alookup old k with
      | none => 0
      | some o =>
          match alookup new k with
          | none => 1
          | some n => if o = n then 0 else 1 := by
  induction old with
  | nil => rfl
  | cons e rest ih =>
      obtain ⟨k', v'⟩ := e
      simp only [NodupKeys, List.map_cons, List.nodup_cons] at hnd
      have ihrest := ih hnd.2
      by_cases hk : k' = k
      · subst hk
        have hrest : alookup rest k' = none :=
          alookup_eq_none (fun v hv =>
            hnd.1 (List.mem_map.mpr ⟨(k', v), hv, rfl⟩))
        rw [hrest] at ihrest
        simp only [alookup, if_pos rfl]
        unfold adeltaOld
        rw [List.filterMap_cons]
        cases hnew : alookup new k' with
        | none =>
            dsimp only
            rw [List.countP_cons]
            unfold adeltaOld at ihrest
            rw [ihrest]
            simp
        | some n =>
            dsimp only
            by_cases hv : v' = n
            · rw [if_pos hv]
              unfold adeltaOld at ihrest
              rw [ihrest]
              simp [hv]
            · rw [if_neg hv]
              rw [List.countP_cons]
              unfold adeltaOld at ihrest
              rw [ihrest]
              simp [hv]
      · simp only [alookup, if_neg hk]
        unfold adeltaOld
        rw [List.filterMap_cons]
        cases hnew : alookup new k' with
        | none =>
            dsimp only
            rw [List.countP_cons]
            unfold adeltaOld at ihrest
            rw [ihrest]
            simp [hk]
        | some n =>
            dsimp only
            by_cases hv : v' = n
            · rw [if_pos hv]
              exact ihrest
            · rw [if_neg hv]
              rw [List.countP_cons]
              unfold adeltaOld at ihrest
              rw [ihrest]
              simp [hk]

/-- Count of delta items at one key contributed by the new side. -/
theorem countP_adeltaNew {κ ν : Type} [DecidableEq κ] [DecidableEq ν]
    (old new : List (κ × ν)) (k : κ) (hnd : NodupKeys new) :
    (adeltaNew old new).countP (fun e => decide (e.1 = k)) =
      if (alookup old k).isSome then 0
      else match alookup new k with
        | none => 0
        | some _ => 1 := by
  induction new with
  | nil =>
      by_cases h : (alookup old k).isSome = true <;>
        simp [adeltaNew, h, alookup]
  | cons e rest ih =>
      obtain ⟨k', v'⟩ := e
      simp only [NodupKeys, List.map_cons, List.nodup_cons] at hnd
      have ihrest := ih hnd.2
      by_cases hk : k' = k
      · subst hk
        have hrest : alookup rest k' = none :=
          alookup_eq_none (fun v hv =>
            hnd.1 (List.mem_map.mpr ⟨(k', v), hv, rfl⟩))
        rw [hrest] at ihrest
        simp only [alookup, if_pos rfl]
        unfold adeltaNew
        rw [List.filterMap_cons]
        by_cases hold : (alookup old k').isSome = true
        · rw [if_pos hold]
          unfold adeltaNew at ihrest
          rw [ihrest]
          simp [hold]
        · rw [if_neg hold]
          dsimp only
          rw [List.countP_cons]
          unfold adeltaNew at ihrest
          rw [ihrest]
          simp [hold]
      · simp only [alookup, if_neg hk]
        unfold adeltaNew
        rw [List.filterMap_cons]
        by_cases hold : (alookup old k').isSome = true
        · rw [if_pos hold]
          exact ihrest
        · rw [if_neg hold]
          dsimp only
          rw [List.countP_cons]
          unfold adeltaNew at ihrest
          rw [ihrest]
          simp [hk]

/-- Count of delta items at one key: exactly diffCount of the two lookups. -/
theorem countP_adelta {κ ν : Type} [DecidableEq κ] [DecidableEq ν]
    (old new : List (κ × ν)) (k : κ) (hndo : NodupKeys old)
    (hndn : NodupKeys new) :
    (adelta old new).countP (fun e => decide (e.1 = k)) =
      diffCount (alookup old k) (alookup new k) := by
  unfold adelta
  rw [List.countP_append, countP_adeltaOld old new k hndo,
    countP_adeltaNew old new k hndn]
  cases ho : alookup old k with
  | none =>
      cases hn : alookup new k with
      | none => simp [ho, diffCount]
      | some n => simp [ho, diffCount]
  | some o =>
      cases hn : alookup new k with
      | none => simp [ho, diffCount]
      | some n =>
          by_cases hv : o = n <;> simp [ho, diffCount, hv]

/-- Soundness of delta items: each records the two lookups at its key, and
they differ. -/
theorem mem_adelta {κ ν : Type} [DecidableEq κ] [DecidableEq ν]
    {old new : List (κ × ν)} {e : κ × Option ν × Option ν}
    (hndo : NodupKeys old) (hndn : NodupKeys new) (he : e ∈ adelta old new) :
    alookup old e.1 = e.2.1 ∧ alookup new e.1 = e.2.2 ∧ e.2.1 ≠ e.2.2 := by
  rcases List.mem_append.mp he with h | h
  · rcases List.mem_filterMap.mp h with ⟨a, ha, hfa⟩
    cases hnew : alookup new a.1 with
    | none =>
        rw [hnew] at hfa
        dsimp only at hfa
        cases hfa
        refine ⟨mem_alookup hndo (by exact ha), hnew, by simp⟩
    | some n =>
        rw [hnew] at hfa
        dsimp only at hfa
        by_cases hv : a.2 = n
        · rw [if_pos hv] at hfa
          cases hfa
        · rw [if_neg hv] at hfa
          cases hfa
          refine ⟨mem_alookup hndo (by exact ha), hnew, by simp [hv]⟩
  · rcases List.mem_filterMap.mp h with ⟨a, ha, hfa⟩
    by_cases hold : (alookup old a.1).isSome = true
    · rw [if_pos hold] at hfa
      cases hfa
    · rw [if_neg hold] at hfa
      cases hfa
      refine ⟨Option.not_isSome_iff_eq_none.mp hold,
        mem_alookup hndn (by exact ha), by simp⟩

theorem countP_flatMap {β γ : Type} (l : List β) (f : β → List γ)
    (q : γ → Bool) :
    (l.flatMap f).countP q = (l.map (fun a => (f a).countP q)).sum := by
  induction l with
  | nil => rfl
  | cons a rest ih =>
      simp only [List.flatMap_cons, List.countP_append, List.map_cons,
        List.sum_cons, ih]

theorem sum_map_ite {β : Type} (l : List β) (g : β → Nat) (q : β → Bool)
    (t : Nat) (h : ∀ x ∈ l, g x = if q x then t else 0) :
    (l.map g).sum = t * l.countP q := by
  induction l with
  | nil => simp
  | cons a rest ih =>
      rw [List.map_cons, List.sum_cons, List.countP_cons,
        ih (fun x hx => h x (List.mem_cons_of_mem _ hx)),
        h a (List.mem_cons_self _ _)]
      cases hq : q a <;> simp [Nat.mul_add, Nat.add_comm]

theorem reRid_containerEvents {α : Type} [DecidableEq α]
    (sel : FibContainer → Fib α)
    (x : Nat × Option FibContainer × Option FibContainer)
    (ev : REvent α) (hev : ev ∈ containerEvents sel x) : reRid ev = x.1 := by
  unfold containerEvents at hev
  cases hx2 : x.2.2 with
  | none =>
      rw [hx2] at hev
      cases hx1 : x.2.1 with
      | some oc =>
          rw [hx1] at hev
          rcases List.mem_map.mp hev with ⟨pr, _, hpr⟩
          rw [← hpr]
          rfl
      | none =>
          rw [hx1] at hev
          cases hev
  | some nc =>
      rw [hx2] at hev
      rcases List.mem_filterMap.mp hev with ⟨d, _, hd⟩
      rcases hd21 : d.2.1 with _ | o <;> rcases hd22 : d.2.2 with _ | n <;>
        rw [hd21, hd22] at hd <;> dsimp only at hd <;>
        cases hd <;> rfl

theorem countP_ext {β : Type} (l : List β) (q q' : β → Bool)
    (h : ∀ x ∈ l, q x = q' x) : l.countP q = l.countP q' := by
  induction l with
  | nil => rfl
  | cons a rest ih =>
      rw [List.countP_cons, List.countP_cons,
        ih (fun x hx => h x (List.mem_cons_of_mem _ hx)),
        h a (List.mem_cons_self _ _)]

/-- Per-prefix count of events from one route-level delta list. -/
theorem countP_processRoutesDelta {α : Type} [DecidableEq α] (rid : Nat)
    (dl : List (RoutePfx α × Option (FibRoute α) × Option (FibRoute α)))
    (p : RoutePfx α)
    (hjunk : ∀ d ∈ dl, ¬(d.2.1 = none ∧ d.2.2 = none)) :
    (processRoutesDelta rid dl).countP
        (fun ev => decide (reRid ev = rid ∧ rePfx ev = p)) =
      dl.countP (fun d => decide (d.1 = p)) := by
  induction dl with
  | nil => rfl
  | cons d rest ih =>
      have ihrest := ih (fun d' hd' => hjunk d' (List.mem_cons_of_mem _ hd'))
      unfold processRoutesDelta
      rw [List.filterMap_cons]
      rcases hd21 : d.2.1 with _ | o <;> rcases hd22 : d.2.2 with _ | n
      · exact absurd ⟨hd21, hd22⟩ (hjunk d (List.mem_cons_self _ _))
      · dsimp only
        rw [List.countP_cons, List.countP_cons]
        unfold processRoutesDelta at ihrest
        rw [ihrest]
        simp [reRid, rePfx]
      · dsimp only
        rw [List.countP_cons, List.countP_cons]
        unfold processRoutesDelta at ihrest
        rw [ihrest]
        simp [reRid, rePfx]
      · dsimp only
        rw [List.countP_cons, List.countP_cons]
        unfold processRoutesDelta at ihrest
        rw [ihrest]
        simp [reRid, rePfx]

/-- Per-prefix count of events from the removeAll lambda over one FIB. -/
theorem countP_removeAll {α : Type} [DecidableEq α] (rid : Nat)
    (fibl : Fib α) (p : RoutePfx α) (hnd : NodupKeys fibl) :
    ((fibl.map (fun pr => REvent.removed rid pr.1 pr.2)).countP
        (fun ev => decide (reRid ev = rid ∧ rePfx ev = p))) =
      if (alookup fibl p).isSome then 1 else 0 := by
  rw [List.countP_map]
  rw [countP_ext _ _ (fun pr => decide (pr.1 = p))
    (fun pr _ => by simp [reRid, rePfx])]
  exact countP_key fibl p hnd

/-- Per-prefix count of the events of one container-delta item, at that
item's own VRF. -/
theorem countP_containerEvents {α : Type} [DecidableEq α]
    (sel : FibContainer → Fib α)
    (x : Nat × Option FibContainer × Option FibContainer) (p : RoutePfx α)
    (hoc : ∀ oc, x.2.1 = some oc → NodupKeys (sel oc))
    (hnc : ∀ nc, x.2.2 = some nc → NodupKeys (sel nc)) :
    (containerEvents sel x).countP
        (fun ev => decide (reRid ev = x.1 ∧ rePfx ev = p)) =
      match x.2.2 with
      | none =>
          match x.2.1 with
          | some oc => if (alookup (sel oc) p).isSome then 1 else 0
          | none => 0
      | some nc =>
          diffCount
            (alookup (match x.2.1 with | some oc => sel oc | none => []) p)
            (alookup (sel nc) p) := by
  unfold containerEvents
  cases hx2 : x.2.2 with
  | none =>
      cases hx1 : x.2.1 with
      | some oc =>
          dsimp only
          exact countP_removeAll x.1 (sel oc) p (hoc oc hx1)
      | none => rfl
  | some nc =>
      dsimp only
      have hndo : NodupKeys (match x.2.1 with
          | some oc => sel oc
          | none => ([] : Fib α)) := by
        cases hx1 : x.2.1 with
        | some oc => exact hoc oc hx1
        | none => exact List.nodup_nil
      have hjunk : ∀ d ∈ adelta (match x.2.1 with
          | some oc => sel oc
          | none => ([] : Fib α)) (sel nc),
          ¬(d.2.1 = none ∧ d.2.2 = none) := by
        intro d hd ⟨h1, h2⟩
        have := (mem_adelta hndo (hnc nc hx2) hd).2.2
        rw [h1, h2] at this
        exact this rfl
      rw [countP_processRoutesDelta x.1 _ p hjunk]
      exact countP_adelta _ _ p hndo (hnc nc hx2)

/-- Claim C4 theorem.  In standalone-RIB mode, for any family selector, the
walker emits exactly one callback per (VRF, prefix) whose route differs
between the two snapshots — none when the two sides agree — and every
emitted callback has the right kind: addedFn when the old route is absent,
removedFn when the new route is absent (in particular once per route of a
VRF present in old but absent in new), changedFn when both are present. -/
theorem c4_forEachChangedRoute_per_prefix {α : Type} [DecidableEq α]
    (sel : FibContainer → Fib α) (old new : List (Nat × FibContainer))
    (hndo : NodupKeys old) (hndn : NodupKeys new)
    (hof : ∀ e ∈ old, NodupKeys (sel e.2))
    (hnf : ∀ e ∈ new, NodupKeys (sel e.2)) :
    (∀ rid p, (forEachChangedRouteFam sel old new).countP
        (fun ev => decide (reRid ev = rid ∧ rePfx ev = p)) =
      diffCount (routeAt sel old rid p) (routeAt sel new rid p)) ∧
    (∀ ev ∈ forEachChangedRouteFam sel old new, eventOK sel old new ev) := by
  constructor
  · intro rid p
    unfold forEachChangedRouteFam
    rw [countP_flatMap]
    rw [sum_map_ite _ _ (fun x => decide (x.1 = rid))
      (diffCount (routeAt sel old rid p) (routeAt sel new rid p)) ?_]
    · rw [countP_adelta old new rid hndo hndn]
      unfold routeAt
      cases ho : alookup old rid with
      | none =>
          cases hn : alookup new rid with
          | none => simp [diffCount]
          | some nc => simp [diffCount]
      | some oc =>
          cases hn : alookup new rid with
          | none => simp [diffCount]
          | some nc =>
              by_cases hc : oc = nc
              · subst hc
                dsimp only
                rw [diffCount_self]
                simp [diffCount_self]
              · simp [diffCount, hc]
    · intro x hx
      by_cases hrid : x.1 = rid
      · rw [if_pos (by simp [hrid])]
        rcases mem_adelta hndo hndn hx with ⟨h1, h2, hne⟩
        have hoc : ∀ oc, x.2.1 = some oc → NodupKeys (sel oc) := by
          intro oc hx1
          rw [hx1] at h1
          exact hof (x.1, oc) (alookup_eq_some_mem h1)
        have hnc : ∀ nc, x.2.2 = some nc → NodupKeys (sel nc) := by
          intro nc hx2
          rw [hx2] at h2
          exact hnf (x.1, nc) (alookup_eq_some_mem h2)
        rw [← hrid]
        rw [countP_containerEvents sel x p hoc hnc]
        unfold routeAt
        rw [h1, h2]
        rcases hx1 : x.2.1 with _ | oc <;> rcases hx2 : x.2.2 with _ | nc
        · rw [hx1, hx2] at hne
          exact absurd rfl hne
        · rfl
        · cases halo : alookup (sel oc) p <;> simp [diffCount, halo]
        · rfl
      · rw [if_neg (by simp [hrid])]
        rw [List.countP_eq_zero]
        intro ev hev
        have := reRid_containerEvents sel x ev hev
        simp only [decide_eq_true_eq]
        intro ⟨hr, _⟩
        exact hrid (by rw [← this, hr])
  · intro ev hev
    unfold forEachChangedRouteFam at hev
    rcases List.mem_flatMap.mp hev with ⟨x, hx, hevx⟩
    rcases mem_adelta hndo hndn hx with ⟨h1, h2, hne⟩
    unfold containerEvents at hevx
    cases hx2 : x.2.2 with
    | none =>
        rw [hx2] at hevx
        cases hx1 : x.2.1 with
        | none =>
            rw [hx1] at hevx
            cases hevx
        | some oc =>
            rw [hx1] at hevx
            rcases List.mem_map.mp hevx with ⟨pr, hpr, hprev⟩
            rw [hx1] at h1
            rw [hx2] at h2
            rw [← hprev]
            unfold eventOK routeAt
            dsimp only
            rw [h1, h2]
            exact ⟨mem_alookup (hof (x.1, oc) (alookup_eq_some_mem h1))
              (by exact hpr), rfl⟩
    | some nc =>
        rw [hx2] at hevx
        rw [hx2] at h2
        have hndfo : NodupKeys (match x.2.1 with
            | some oc => sel oc
            | none => ([] : Fib α)) := by
          cases hx1 : x.2.1 with
          | some oc =>
              rw [hx1] at h1
              exact hof (x.1, oc) (alookup_eq_some_mem h1)
          | none => exact List.nodup_nil
        have hrold : ∀ q, routeAt sel old x.1 q =
            alookup (match x.2.1 with
              | some oc => sel oc
              | none => ([] : Fib α)) q := by
          intro q
          unfold routeAt
          rw [h1]
          cases hx1 : x.2.1 with
          | some oc => rfl
          | none => rfl
        have hrnew : ∀ q, routeAt sel new x.1 q = alookup (sel nc) q := by
          intro q
          unfold routeAt
          rw [h2]
        rcases List.mem_filterMap.mp hevx with ⟨d, hd, hdev⟩
        rcases mem_adelta hndfo (hnf (x.1, nc) (alookup_eq_some_mem h2)) hd
          with ⟨g1, g2, gne⟩
        rcases hd21 : d.2.1 with _ | o <;> rcases hd22 : d.2.2 with _ | n <;>
          rw [hd21, hd22] at hdev <;> dsimp only at hdev
        · cases hdev
        · cases hdev
          unfold eventOK
          dsimp only
          rw [hrold, hrnew, g1, g2, hd21, hd22]
          exact ⟨rfl, rfl⟩
        · cases hdev
          unfold eventOK
          dsimp only
          rw [hrold, hrnew, g1, g2, hd21, hd22]
          exact ⟨rfl, rfl⟩
        · cases hdev
          unfold eventOK
          dsimp only
          rw [hrold, hrnew, g1, g2, hd21, hd22]
          refine ⟨rfl, rfl, ?_⟩
          intro hon
          rw [hd21, hd22, hon] at gne
          exact gne rfl

/-- Every visit's VRF is a key of the fibs map. -/
theorem forAllRoutes_rid_mem (fibs : List (Nat × FibContainer)) :
    ∀ v ∈ forAllRoutes fibs, visitRid v ∈ fibs.map Prod.fst := by
  induction fibs with
  | nil => intro v hv; cases hv
  | cons e rest ih =>
      intro v hv
      unfold forAllRoutes at hv
      rcases List.mem_append.mp hv with h | h
      · rcases List.mem_map.mp h with ⟨pr, _, hpr⟩
        rw [← hpr]
        exact List.mem_cons_self _ _
      · rcases List.mem_append.mp h with h' | h'
        · rcases List.mem_map.mp h' with ⟨pr, _, hpr⟩
          rw [← hpr]
          exact List.mem_cons_self _ _
        · exact List.mem_cons_of_mem _ (ih v h')

/-- In a FIB whose entries carry their own key as their prefix and whose
keys are unique, a stored route value determines its entry. -/
theorem countP_snd_eq {α : Type} [DecidableEq α] (l : Fib α)
    (pr : RoutePfx α × FibRoute α) (hnd : NodupKeys l)
    (hcoh : ∀ q ∈ l, q.2.pfx = q.1) (hm : pr ∈ l) :
    l.countP (fun q => decide (q.2 = pr.2)) = 1 := by
  induction l with
  | nil => cases hm
  | cons a rest ih =>
      simp only [NodupKeys, List.map_cons, List.nodup_cons] at hnd
      rw [List.countP_cons]
      by_cases ha : a.2 = pr.2
      · have hrest : rest.countP (fun q => decide (q.2 = pr.2)) = 0 := by
          rw [List.countP_eq_zero]
          intro q hq
          simp only [decide_eq_true_eq]
          intro hq2
          apply hnd.1
          have h1 : q.1 = a.1 := by
            rw [← hcoh q (List.mem_cons_of_mem _ hq), hq2, ← ha,
              hcoh a (List.mem_cons_self _ _)]
          rw [← h1]
          exact List.mem_map.mpr ⟨q, hq, rfl⟩
        rw [hrest]
        simp [ha]
      · have hm' : pr ∈ rest := by
          rcases List.mem_cons.mp hm with h | h
          · exact absurd (by rw [h]) ha
          · exact h
        rw [ih hnd.2 (fun q hq => hcoh q (List.mem_cons_of_mem _ hq)) hm']
        simp [ha]

/-- Exactly-once visiting of the V6 routes by forAllRoutes. -/
theorem forAllRoutes_count_v6 (fibs : List (Nat × FibContainer))
    (hnd : NodupKeys fibs)
    (hcoh : ∀ e ∈ fibs, NodupKeys e.2.fibV6 ∧ ∀ q ∈ e.2.fibV6, q.2.pfx = q.1)
    {e : Nat × FibContainer} (he : e ∈ fibs)
    {pr : RoutePfx AddrV6 × FibRoute AddrV6} (hpr : pr ∈ e.2.fibV6) :
    (forAllRoutes fibs).countP
      (fun v => decide (v = Visit.v6 e.1 pr.2)) = 1 := by
  induction fibs with
  | nil => cases he
  | cons a rest ih =>
      simp only [NodupKeys, List.map_cons, List.nodup_cons] at hnd
      unfold forAllRoutes
      rw [List.countP_append, List.countP_append]
      have hv4 : (a.2.fibV4.map (fun pr' => Visit.v4 a.1 pr'.2)).countP
          (fun v => decide (v = Visit.v6 e.1 pr.2)) = 0 := by
        rw [List.countP_eq_zero]
        intro v hv
        rcases List.mem_map.mp hv with ⟨pr', _, hpr'⟩
        rw [← hpr']
        simp
      rcases List.mem_cons.mp he with hea | hea
      · subst hea
        have h6 : (e.2.fibV6.map (fun pr' => Visit.v6 e.1 pr'.2)).countP
            (fun v => decide (v = Visit.v6 e.1 pr.2)) = 1 := by
          rw [List.countP_map]
          rw [countP_ext _ _ (fun pr' => decide (pr'.2 = pr.2))
            (fun pr' _ => by simp)]
          exact countP_snd_eq e.2.fibV6 pr (hcoh e (List.mem_cons_self _ _)).1
            (hcoh e (List.mem_cons_self _ _)).2 hpr
        have hrest : (forAllRoutes rest).countP
            (fun v => decide (v = Visit.v6 e.1 pr.2)) = 0 := by
          rw [List.countP_eq_zero]
          intro v hv
          simp only [decide_eq_true_eq]
          intro hveq
          apply hnd.1
          have := forAllRoutes_rid_mem rest v hv
          rw [hveq] at this
          exact this
        rw [h6, hv4, hrest]
      · have hne : a.1 ≠ e.1 := by
          intro haeq
          apply hnd.1
          rw [haeq]
          exact List.mem_map.mpr ⟨e, hea, rfl⟩
        have h6 : (a.2.fibV6.map (fun pr' => Visit.v6 a.1 pr'.2)).countP
            (fun v => decide (v = Visit.v6 e.1 pr.2)) = 0 := by
          rw [List.countP_eq_zero]
          intro v hv
          rcases List.mem_map.mp hv with ⟨pr', _, hpr'⟩
          rw [← hpr']
          simp
          intro h
          exact absurd h hne
        rw [h6, hv4,
          ih hnd.2 (fun q hq => hcoh q (List.mem_cons_of_mem _ hq)) hea]

/-- Exactly-once visiting of the V4 routes by forAllRoutes. -/
theorem forAllRoutes_count_v4 (fibs : List (Nat × FibContainer))
    (hnd : NodupKeys fibs)
    (hcoh : ∀ e ∈ fibs, NodupKeys e.2.fibV4 ∧ ∀ q ∈ e.2.fibV4, q.2.pfx = q.1)
    {e : Nat × FibContainer} (he : e ∈ fibs)
    {pr : RoutePfx AddrV4 × FibRoute AddrV4} (hpr : pr ∈ e.2.fibV4) :
    (forAllRoutes fibs).countP
      (fun v => decide (v = Visit.v4 e.1 pr.2)) = 1 := by
  induction fibs with
  | nil => cases he
  | cons a rest ih =>
      simp only [NodupKeys, List.map_cons, List.nodup_cons] at hnd
      unfold forAllRoutes
      rw [List.countP_append, List.countP_append]
      have hv6 : (a.2.fibV6.map (fun pr' => Visit.v6 a.1 pr'.2)).countP
          (fun v => decide (v = Visit.v4 e.1 pr.2)) = 0 := by
        rw [List.countP_eq_zero]
        intro v hv
        rcases List.mem_map.mp hv with ⟨pr', _, hpr'⟩
        rw [← hpr']
        simp
      rcases List.mem_cons.mp he with hea | hea
      · subst hea
        have h4 : (e.2.fibV4.map (fun pr' => Visit.v4 e.1 pr'.2)).countP
            (fun v => decide (v = Visit.v4 e.1 pr.2)) = 1 := by
          rw [List.countP_map]
          rw [countP_ext _ _ (fun pr' => decide (pr'.2 = pr.2))
            (fun pr' _ => by simp)]
          exact countP_snd_eq e.2.fibV4 pr (hcoh e (List.mem_cons_self _ _)).1
            (hcoh e (List.mem_cons_self _ _)).2 hpr
        have hrest : (forAllRoutes rest).countP
            (fun v => decide (v = Visit.v4 e.1 pr.2)) = 0 := by
          rw [List.countP_eq_zero]
          intro v hv
          simp only [decide_eq_true_eq]
          intro hveq
          apply hnd.1
          have := forAllRoutes_rid_mem rest v hv
          rw [hveq] at this
          exact this
        rw [hv6, h4, hrest]
      · have hne : a.1 ≠ e.1 := by
          intro haeq
          apply hnd.1
          rw [haeq]
          exact List.mem_map.mpr ⟨e, hea, rfl⟩
        have h4 : (a.2.fibV4.map (fun pr' => Visit.v4 a.1 pr'.2)).countP
            (fun v => decide (v = Visit.v4 e.1 pr.2)) = 0 := by
          rw [List.countP_eq_zero]
          intro v hv
          rcases List.mem_map.mp hv with ⟨pr', _, hpr'⟩
          rw [← hpr']
          simp
          intro h
          exact absurd h hne
        rw [hv6, h4,
          ih hnd.2 (fun q hq => hcoh q (List.mem_cons_of_mem _ hq)) hea]

/-- Within each VRF, forAllRoutes emits all V6 visits before any V4 visit:
the V6-filtered visits followed by the V4-filtered visits reassemble the
VRF's visit stream. -/
theorem forAllRoutes_v6_before_v4 (fibs : List (Nat × FibContainer))
    (hnd : NodupKeys fibs) (rid : Nat) :
    (forAllRoutes fibs).filter
        (fun v => decide (visitRid v = rid) && !visitIsV4 v) ++
      (forAllRoutes fibs).filter
        (fun v => decide (visitRid v = rid) && visitIsV4 v) =
      (forAllRoutes fibs).filter (fun v => decide (visitRid v = rid)) := by
  induction fibs with
  | nil => rfl
  | cons a rest ih =>
      simp only [NodupKeys, List.map_cons, List.nodup_cons] at hnd
      unfold forAllRoutes
      rw [List.filter_append, List.filter_append, List.filter_append,
        List.filter_append, List.filter_append, List.filter_append]
      have h6v4 : (a.2.fibV6.map (fun pr => Visit.v6 a.1 pr.2)).filter
          (fun v => decide (visitRid v = rid) && visitIsV4 v) = [] := by
        rw [List.filter_eq_nil_iff]
        intro v hv
        rcases List.mem_map.mp hv with ⟨pr, _, hpr⟩
        rw [← hpr]
        simp [visitIsV4]
      have h4v6 : (a.2.fibV4.map (fun pr => Visit.v4 a.1 pr.2)).filter
          (fun v => decide (visitRid v = rid) && !visitIsV4 v) = [] := by
        rw [List.filter_eq_nil_iff]
        intro v hv
        rcases List.mem_map.mp hv with ⟨pr, _, hpr⟩
        rw [← hpr]
        simp [visitIsV4]
      by_cases ha : a.1 = rid
      · have hrestnil : ∀ q : Visit → Bool, (forAllRoutes rest).filter
            (fun v => decide (visitRid v = rid) && q v) = [] := by
          intro q
          rw [List.filter_eq_nil_iff]
          intro v hv
          have := forAllRoutes_rid_mem rest v hv
          simp only [Bool.and_eq_true, decide_eq_true_eq]
          intro ⟨hr, _⟩
          rw [hr, ← ha] at this
          exact hnd.1 this
        have hrestnil' : (forAllRoutes rest).filter
            (fun v => decide (visitRid v = rid)) = [] := by
          rw [List.filter_eq_nil_iff]
          intro v hv
          have := forAllRoutes_rid_mem rest v hv
          simp only [decide_eq_true_eq]
          intro hr
          rw [hr, ← ha] at this
          exact hnd.1 this
        have h6self : (a.2.fibV6.map (fun pr => Visit.v6 a.1 pr.2)).filter
            (fun v => decide (visitRid v = rid) && !visitIsV4 v) =
            a.2.fibV6.map (fun pr => Visit.v6 a.1 pr.2) := by
          rw [List.filter_eq_self]
          intro v hv
          rcases List.mem_map.mp hv with ⟨pr, _, hpr⟩
          rw [← hpr]
          simp [visitRid, visitIsV4, ha]
        have h4self : (a.2.fibV4.map (fun pr => Visit.v4 a.1 pr.2)).filter
            (fun v => decide (visitRid v = rid) && visitIsV4 v) =
            a.2.fibV4.map (fun pr => Visit.v4 a.1 pr.2) := by
          rw [List.filter_eq_self]
          intro v hv
          rcases List.mem_map.mp hv with ⟨pr, _, hpr⟩
          rw [← hpr]
          simp [visitRid, visitIsV4, ha]
        have h6all : (a.2.fibV6.map (fun pr => Visit.v6 a.1 pr.2)).filter
            (fun v => decide (visitRid v = rid)) =
            a.2.fibV6.map (fun pr => Visit.v6 a.1 pr.2) := by
          rw [List.filter_eq_self]
          intro v hv
          rcases List.mem_map.mp hv with ⟨pr, _, hpr⟩
          rw [← hpr]
          simp [visitRid, ha]
        have h4all : (a.2.fibV4.map (fun pr => Visit.v4 a.1 pr.2)).filter
            (fun v => decide (visitRid v = rid)) =
            a.2.fibV4.map (fun pr => Visit.v4 a.1 pr.2) := by
          rw [List.filter_eq_self]
          intro v hv
          rcases List.mem_map.mp hv with ⟨pr, _, hpr⟩
          rw [← hpr]
          simp [visitRid, ha]
        rw [h6self, h4v6, h6v4, h4self, h6all, h4all, hrestnil _,
          hrestnil _, hrestnil']
        simp
      · have h6nil : ∀ q : Visit → Bool, (a.2.fibV6.map
            (fun pr => Visit.v6 a.1 pr.2)).filter
            (fun v => decide (visitRid v = rid) && q v) = [] := by
          intro q
          rw [List.filter_eq_nil_iff]
          intro v hv
          rcases List.mem_map.mp hv with ⟨pr, _, hpr⟩
          rw [← hpr]
          simp [visitRid, ha]
        have h4nil : ∀ q : Visit → Bool, (a.2.fibV4.map
            (fun pr => Visit.v4 a.1 pr.2)).filter
            (fun v => decide (visitRid v = rid) && q v) = [] := by
          intro q
          rw [List.filter_eq_nil_iff]
          intro v hv
          rcases List.mem_map.mp hv with ⟨pr, _, hpr⟩
          rw [← hpr]
          simp [visitRid, ha]
        have h6nil' : (a.2.fibV6.map (fun pr => Visit.v6 a.1 pr.2)).filter
            (fun v => decide (visitRid v = rid)) = [] := by
          rw [List.filter_eq_nil_iff]
          intro v hv
          rcases List.mem_map.mp hv with ⟨pr, _, hpr⟩
          rw [← hpr]
          simp [visitRid, ha]
        have h4nil' : (a.2.fibV4.map (fun pr => Visit.v4 a.1 pr.2)).filter
            (fun v => decide (visitRid v = rid)) = [] := by
          rw [List.filter_eq_nil_iff]
          intro v hv
          rcases List.mem_map.mp hv with ⟨pr, _, hpr⟩
          rw [← hpr]
          simp [visitRid, ha]
        rw [h6nil _, h4nil _, h6nil _, h4nil _, h6nil', h4nil']
        simpa using ih hnd.2

/-- The untyped walker emits every V4-family event before any V6-family
event. -/
theorem forEachChangedRouteUntyped_v4_first
    (old new : List (Nat × FibContainer)) :
    (forEachChangedRouteUntyped old new).filter uIsV4 ++
      (forEachChangedRouteUntyped old new).filter (fun u => !uIsV4 u) =
      forEachChangedRouteUntyped old new := by
  unfold forEachChangedRouteUntyped
  rw [List.filter_append, List.filter_append]
  have h1 : ((forEachChangedRouteFam (fun c => c.fibV4) old new).map
      UEvent.u4).filter uIsV4 =
      (forEachChangedRouteFam (fun c => c.fibV4) old new).map UEvent.u4 := by
    rw [List.filter_eq_self]
    intro u hu
    rcases List.mem_map.mp hu with ⟨ev, _, hev⟩
    rw [← hev]
    rfl
  have h2 : ((forEachChangedRouteFam (fun c => c.fibV6) old new).map
      UEvent.u6).filter uIsV4 = [] := by
    rw [List.filter_eq_nil_iff]
    intro u hu
    rcases List.mem_map.mp hu with ⟨ev, _, hev⟩
    rw [← hev]
    simp [uIsV4]
  have h3 : ((forEachChangedRouteFam (fun c => c.fibV4) old new).map
      UEvent.u4).filter (fun u => !uIsV4 u) = [] := by
    rw [List.filter_eq_nil_iff]
    intro u hu
    rcases List.mem_map.mp hu with ⟨ev, _, hev⟩
    rw [← hev]
    simp [uIsV4]
  have h4 : ((forEachChangedRouteFam (fun c => c.fibV6) old new).map
      UEvent.u6).filter (fun u => !uIsV4 u) =
      (forEachChangedRouteFam (fun c => c.fibV6) old new).map UEvent.u6 := by
    rw [List.filter_eq_self]
    intro u hu
    rcases List.mem_map.mp hu with ⟨ev, _, hev⟩
    rw [← hev]
    rfl
  rw [h1, h2, h3, h4]
  simp

/-- Claim C9 theorem.  In standalone-RIB mode forAllRoutes invokes the
callback exactly once per FIB route of every VRF, and within each
FibContainer it visits all IPv6 routes before any IPv4 route; the untyped
forEachChangedRoute processes the opposite family order, emitting every
V4-family event before any V6-family event. -/
theorem c9_forAllRoutes_once_v6_first (fibs old new : List (Nat × FibContainer))
    (hnd : NodupKeys fibs)
    (hc6 : ∀ e ∈ fibs, NodupKeys e.2.fibV6 ∧ ∀ q ∈ e.2.fibV6, q.2.pfx = q.1)
    (hc4 : ∀ e ∈ fibs, NodupKeys e.2.fibV4 ∧ ∀ q ∈ e.2.fibV4, q.2.pfx = q.1) :
    (∀ e ∈ fibs, ∀ pr ∈ e.2.fibV6,
      (forAllRoutes fibs).countP
        (fun v => decide (v = Visit.v6 e.1 pr.2)) = 1) ∧
    (∀ e ∈ fibs, ∀ pr ∈ e.2.fibV4,
      (forAllRoutes fibs).countP
        (fun v => decide (v = Visit.v4 e.1 pr.2)) = 1) ∧
    (∀ rid, (forAllRoutes fibs).filter
        (fun v => decide (visitRid v = rid) && !visitIsV4 v) ++
      (forAllRoutes fibs).filter
        (fun v => decide (visitRid v = rid) && visitIsV4 v) =
      (forAllRoutes fibs).filter (fun v => decide (visitRid v = rid))) ∧
    ((forEachChangedRouteUntyped old new).filter uIsV4 ++
      (forEachChangedRouteUntyped old new).filter (fun u => !uIsV4 u) =
      forEachChangedRouteUntyped old new) :=
  ⟨fun _ he _ hpr => forAllRoutes_count_v6 fibs hnd hc6 he hpr,
   fun _ he _ hpr => forAllRoutes_count_v4 fibs hnd hc4 he hpr,
   fun rid => forAllRoutes_v6_before_v4 fibs hnd rid,
   forEachChangedRouteUntyped_v4_first old new⟩

/-- Claim C4 witness at a concrete delta (a VRF removed entirely). -/
theorem c4_witness :
    NodupKeys c4oldW ∧ NodupKeys c4newW ∧
    (∀ e ∈ c4oldW, NodupKeys (e.2.fibV4)) ∧
    (∀ e ∈ c4newW, NodupKeys (e.2.fibV4)) ∧
    ((∀ rid p, (forEachChangedRouteFam (fun c => c.fibV4) c4oldW c4newW).countP
        (fun ev => decide (reRid ev = rid ∧ rePfx ev = p)) =
      diffCount (routeAt (fun c => c.fibV4) c4oldW rid p)
        (routeAt (fun c => c.fibV4) c4newW rid p)) ∧
    (∀ ev ∈ forEachChangedRouteFam (fun c => c.fibV4) c4oldW c4newW,
      eventOK (fun c => c.fibV4) c4oldW c4newW ev)) :=
  ⟨by decide, by decide, by decide, by decide,
    c4_forEachChangedRoute_per_prefix (fun c => c.fibV4) c4oldW c4newW
      (by decide) (by decide) (by decide) (by decide)⟩

/-- Claim C9 witness at a concrete state with one VRF holding one V4 and
one V6 route. -/
theorem c9_witness :
    NodupKeys c9fibsW ∧
    (∀ e ∈ c9fibsW, NodupKeys e.2.fibV6 ∧ ∀ q ∈ e.2.fibV6, q.2.pfx = q.1) ∧
    (∀ e ∈ c9fibsW, NodupKeys e.2.fibV4 ∧ ∀ q ∈ e.2.fibV4, q.2.pfx = q.1) ∧
    ((∀ e ∈ c9fibsW, ∀ pr ∈ e.2.fibV6,
      (forAllRoutes c9fibsW).countP
        (fun v => decide (v = Visit.v6 e.1 pr.2)) = 1) ∧
    (∀ e ∈ c9fibsW, ∀ pr ∈ e.2.fibV4,
      (forAllRoutes c9fibsW).countP
        (fun v => decide (v = Visit.v4 e.1 pr.2)) = 1) ∧
    (∀ rid, (forAllRoutes c9fibsW).filter
        (fun v => decide (visitRid v = rid) && !visitIsV4 v) ++
      (forAllRoutes c9fibsW).filter
        (fun v => decide (visitRid v = rid) && visitIsV4 v) =
      (forAllRoutes c9fibsW).filter (fun v => decide (visitRid v = rid))) ∧
    ((forEachChangedRouteUntyped c4oldW c4newW).filter uIsV4 ++
      (forEachChangedRouteUntyped c4oldW c4newW).filter (fun u => !uIsV4 u) =
      forEachChangedRouteUntyped c4oldW c4newW)) :=
  ⟨by decide, by decide, by decide,
    c9_forAllRoutes_once_v6_first c9fibsW c4oldW c4newW (by decide)
      (by decide) (by decide)⟩

/-- runStateMachine never touches the pending timeout. -/
theorem runStateMachine_scheduled {hit : Bool} {e e1 : NEntry} {n : Nat}
    (h : runStateMachine hit e = .ok (e1, n)) : e1.scheduled = e.scheduled := by
  unfold runStateMachine at h
  cases hs : e.state <;> rw [hs] at h <;>
    first
    | cases h
    | · unfold probeIfProbesLeft at h
        by_cases hp : e.probesLeft > 0 <;>
          [rw [if_pos hp] at h; rw [if_neg hp] at h] <;> cases h <;> rfl
    | · unfold probeStaleEntryIfHit probeIfProbesLeft at h
        cases hit <;> simp only [if_pos, if_neg, Bool.false_eq_true,
          if_false, if_true] at h
        · cases h; rfl
        · by_cases hp : e.probesLeft > 0 <;>
            [rw [if_pos hp] at h; rw [if_neg hp] at h] <;> cases h <;> rfl

/-- A successful scheduleNextUpdate keeps the state and, away from EXPIRED,
leaves a pending timeout. -/
theorem scheduleNextUpdate_ok {cfg : NConfig} {rand : Nat} {e1 e2 : NEntry}
    (h : scheduleNextUpdate cfg rand e1 = .ok e2) :
    e2.state = e1.state ∧
      (e1.state ≠ .EXPIRED → e2.scheduled.isSome = true) := by
  unfold scheduleNextUpdate at h
  cases hs : e1.state <;> rw [hs] at h <;> cases h <;>
    simp [hs]

/-- After any completed process() run that started with no pending timeout,
a timeout is pending exactly when the entry is not EXPIRED. -/
theorem process_inv {cfg : NConfig} {hit : Bool} {rand : Nat}
    {e e' : NEntry} {n : Nat} (hsch : e.scheduled = none)
    (h : process cfg hit rand e = .ok (e', n)) :
    e'.scheduled.isSome = true ↔ e'.state ≠ .EXPIRED := by
  unfold process at h
  rw [hsch] at h
  simp only [Option.isSome_none, Bool.false_eq_true, if_false] at h
  cases hrsm : runStateMachine hit e with
  | error msg => rw [hrsm] at h; cases h
  | ok p =>
      rw [hrsm] at h
      obtain ⟨e1, k⟩ := p
      dsimp only at h
      by_cases hex : e1.state = .EXPIRED
      · rw [if_neg (by simp [hex])] at h
        cases h
        have hpres := runStateMachine_scheduled hrsm
        constructor
        · intro hs
          rw [hpres, hsch] at hs
          cases hs
        · intro hne
          exact absurd hex hne
      · rw [if_pos (by simp [hex])] at h
        cases hsnu : scheduleNextUpdate cfg rand e1 with
        | error msg => rw [hsnu] at h; cases h
        | ok e2 =>
            rw [hsnu] at h
            cases h
            rcases scheduleNextUpdate_ok hsnu with ⟨hst, hsome⟩
            constructor
            · intro _
              rw [hst]
              exact hex
            · intro _
              exact hsome hex

/-- A successful enter() leaves the entry scheduled and not EXPIRED
(given at least one configured probe). -/
theorem enter_ok {cfg : NConfig} {hit : Bool} {rand : Nat} {s : NState}
    {e e' : NEntry} {n : Nat} (hmax : 1 ≤ cfg.maxProbes)
    (h : enter cfg hit rand s e = .ok (e', n)) :
    e'.scheduled.isSome = true ∧ e'.state ≠ .EXPIRED := by
  cases s with
  | UNINIT => exact absurd h (by simp [enter, enterProbesLeft])
  | DELAY => exact absurd h (by simp [enter, enterProbesLeft])
  | PROBE => exact absurd h (by simp [enter, enterProbesLeft])
  | EXPIRED => exact absurd h (by simp [enter, enterProbesLeft])
  | INCOMPLETE =>
      simp only [enter, enterProbesLeft, scheduleNextUpdate] at h
      simp at h
      obtain ⟨he', _⟩ := h
      rw [← he']
      exact ⟨rfl, by simp⟩
  | REACHABLE =>
      simp only [enter, enterProbesLeft, scheduleNextUpdate] at h
      simp at h
      obtain ⟨he', _⟩ := h
      rw [← he']
      exact ⟨rfl, by simp⟩
  | STALE =>
      simp only [enter, enterProbesLeft] at h
      rw [if_pos trivial] at h
      cases hrsm : runStateMachine hit
          { e with state := .STALE, probesLeft := cfg.maxProbes } with
      | error msg => rw [hrsm] at h; cases h
      | ok p =>
          rw [hrsm] at h
          obtain ⟨e2, m⟩ := p
          dsimp only at h
          have hex : e2.state ≠ .EXPIRED := by
            unfold runStateMachine at hrsm
            dsimp only at hrsm
            unfold probeStaleEntryIfHit at hrsm
            cases hit with
            | false =>
                rw [if_neg (by simp)] at hrsm
                cases hrsm
                simp
            | true =>
                rw [if_pos rfl] at hrsm
                unfold probeIfProbesLeft at hrsm
                rw [if_pos (by simp; omega)] at hrsm
                cases hrsm
                simp
          cases hsnu : scheduleNextUpdate cfg rand e2 with
          | error msg => rw [hsnu] at h; cases h
          | ok e3 =>
              rw [hsnu] at h
              cases h
              rcases scheduleNextUpdate_ok hsnu with ⟨hst, hsome⟩
              exact ⟨hsome hex, by rw [hst]; exact hex⟩

/-- Claim C6 theorem.  For every reachable entry of a cache configured with
at least one probe, at every point between complete operations a timeout is
pending (exactly one timer scheduled) if and only if the entry's state is
not EXPIRED. -/
theorem c6_timer_iff_not_expired (cfg : NConfig) (e : NEntry)
    (hmax : 1 ≤ cfg.maxProbes) (hr : Reachable cfg e) :
    e.scheduled.isSome = true ↔ e.state ≠ .EXPIRED := by
  induction hr with
  | create hit rand s e0 n h =>
      rcases enter_ok hmax h with ⟨h1, h2⟩
      exact ⟨fun _ => h2, fun _ => h1⟩
  | tick hit rand t e0 e' n hre hsch htick ih =>
      exact process_inv rfl htick
  | update hit rand s e0 e' n hre hne h ih =>
      rcases enter_ok hmax h with ⟨h1, h2⟩
      exact ⟨fun _ => h2, fun _ => h1⟩

theorem nTicks_succ (cfg : NConfig) (hit : Bool) (rand n : Nat)
    (e : NEntry) :
    nTicks cfg hit rand (n + 1) e =
      match timerTick cfg hit rand e with
      | .error msg => .error msg
      | .ok (e1, k) =>
          match nTicks cfg hit rand n e1 with
          | .error msg => .error msg
          | .ok (e2, m) => .ok (e2, k + m) := rfl

/-- From probesLeft = k in INCOMPLETE or PROBE, k + 1 timer expirations
with no intervening external update reach EXPIRED, emitting k probes, and
leave no timeout pending. -/
theorem ticks_to_expired (cfg : NConfig) (hit : Bool) (rand : Nat) :
    ∀ (k : Nat) (e : NEntry),
    (e.state = .INCOMPLETE ∨ e.state = .PROBE) → e.probesLeft = k →
    ∃ e', nTicks cfg hit rand (k + 1) e = .ok (e', k) ∧
      e'.state = .EXPIRED ∧ e'.scheduled = none := by
  intro k
  induction k with
  | zero =>
      intro e hst hpl
      have hrsm : runStateMachine hit { e with scheduled := none } =
          .ok ({ e with scheduled := none, state := .EXPIRED }, 0) := by
        rcases hst with h | h <;>
          simp [runStateMachine, h, probeIfProbesLeft, hpl]
      have hpr : process cfg hit rand { e with scheduled := none } =
          .ok ({ e with scheduled := none, state := .EXPIRED }, 0) := by
        unfold process
        simp only [Option.isSome_none, Bool.false_eq_true, if_false]
        rw [hrsm]
        dsimp only
        rw [if_neg (by simp)]
      have htick : timerTick cfg hit rand e =
          .ok ({ e with scheduled := none, state := .EXPIRED }, 0) := hpr
      refine ⟨{ e with scheduled := none, state := .EXPIRED }, ?_, rfl, rfl⟩
      rw [nTicks_succ, htick]
      rfl
  | succ k ih =>
      intro e hst hpl
      have hrsm : runStateMachine hit { e with scheduled := none } =
          .ok ({ e with scheduled := none, probesLeft := k }, 1) := by
        rcases hst with h | h <;>
          simp [runStateMachine, h, probeIfProbesLeft, hpl]
      have hsnu : scheduleNextUpdate cfg rand
          { e with scheduled := none, probesLeft := k } =
          .ok { e with probesLeft := k, scheduled := some 1000 } := by
        rcases hst with h | h <;> simp [scheduleNextUpdate, h]
      have hpr : process cfg hit rand { e with scheduled := none } =
          .ok ({ e with probesLeft := k, scheduled := some 1000 }, 1) := by
        unfold process
        simp only [Option.isSome_none, Bool.false_eq_true, if_false]
        rw [hrsm]
        dsimp only
        rw [if_pos (by rcases hst with h | h <;> simp [h])]
        rw [hsnu]
      have htick : timerTick cfg hit rand e =
          .ok ({ e with probesLeft := k, scheduled := some 1000 }, 1) := hpr
      rcases ih { e with probesLeft := k, scheduled := some 1000 }
          (by rcases hst with h | h <;> simp [h]) rfl with
        ⟨e', hnt, hst', hsch'⟩
      refine ⟨e', ?_, hst', hsch'⟩
      rw [nTicks_succ, htick]
      dsimp only
      rw [hnt]
      dsimp only
      rw [Nat.add_comm 1 k]

/-- Claim C5 theorem.  An entry in INCOMPLETE or PROBE holding the entered
probesLeft value maxProbes − 1, with its timeout pending, reaches EXPIRED
after exactly maxProbes consecutive timer-driven process() runs with no
intervening external update; at that point no timeout is pending, and any
further process() run would throw rather than schedule one. -/
theorem c5_max_probes_ticks_expire (cfg : NConfig) (hit : Bool)
    (rand t : Nat) (e : NEntry) (hmax : 1 ≤ cfg.maxProbes)
    (hst : e.state = .INCOMPLETE ∨ e.state = .PROBE)
    (hpl : e.probesLeft = cfg.maxProbes - 1)
    (_hsch : e.scheduled = some t) :
    ∃ e', nTicks cfg hit rand cfg.maxProbes e = .ok (e', cfg.maxProbes - 1) ∧
      e'.state = .EXPIRED ∧ e'.scheduled = none ∧
      ∀ (hit' : Bool) (rand' : Nat),
        process cfg hit' rand' e' =
          .error "Found NeighborCacheEntry with invalid state" := by
  rcases ticks_to_expired cfg hit rand (cfg.maxProbes - 1) e hst hpl with
    ⟨e', hnt, hst', hsch'⟩
  have hmp : cfg.maxProbes - 1 + 1 = cfg.maxProbes := by omega
  rw [hmp] at hnt
  refine ⟨e', hnt, hst', hsch', ?_⟩
  intro hit' rand'
  unfold process
  rw [hsch']
  simp only [Option.isSome_none, Bool.false_eq_true, if_false]
  have hr : runStateMachine hit' e' =
      .error "Found NeighborCacheEntry with invalid state" := by
    unfold runStateMachine
    rw [hst']
  rw [hr]

/-- Claim C7 theorem.  A STALE entry with probes remaining (as every STALE
entry has: entering STALE resets probesLeft to maxProbes) whose timer
fires: with the hit bit set it transitions to PROBE, emits exactly one
solicitation, decrements probesLeft and schedules a 1-second timeout; with
the hit bit clear it stays STALE and schedules a staleInterval timeout. -/
theorem c7_stale_tick (cfg : NConfig) (rand t : Nat) (e : NEntry)
    (hst : e.state = .STALE) (hpl : 1 ≤ e.probesLeft)
    (_hsch : e.scheduled = some t) :
    timerTick cfg true rand e =
      .ok ({ e with
             state := .PROBE
             probesLeft := e.probesLeft - 1
             scheduled := some 1000 }, 1) ∧
    timerTick cfg false rand e =
      .ok ({ e with scheduled := some (cfg.staleInterval * 1000) }, 0) := by
  have hpos : 0 < e.probesLeft := hpl
  constructor
  · have hrsm : runStateMachine true { e with scheduled := none } =
        .ok ({ e with
               scheduled := none
               state := .PROBE
               probesLeft := e.probesLeft - 1 }, 1) := by
      simp [runStateMachine, hst, probeStaleEntryIfHit, probeIfProbesLeft,
        hpos]
    show process cfg true rand { e with scheduled := none } = _
    unfold process
    simp only [Option.isSome_none, Bool.false_eq_true, if_false]
    rw [hrsm]
    dsimp only
    rw [if_pos (by simp)]
    simp [scheduleNextUpdate]
  · have hrsm : runStateMachine false { e with scheduled := none } =
        .ok ({ e with scheduled := none }, 0) := by
      simp [runStateMachine, hst, probeStaleEntryIfHit]
    show process cfg false rand { e with scheduled := none } = _
    unfold process
    simp only [Option.isSome_none, Bool.false_eq_true, if_false]
    rw [hrsm]
    dsimp only
    rw [if_pos (by simp [hst])]
    simp [scheduleNextUpdate, hst]

/-- Claim C8 theorem.  For every value of the draw rand32(base) — a value
below base, where base is the cache's base timeout in milliseconds — the
duration calculateLifetime returns lies in [base/2, base + base/2), which
equals [base/2, 3*base/2). -/
theorem c8_calculateLifetime_range (cfg : NConfig) (rand : Nat)
    (hr : rand < cfg.baseTimeoutSecs * 1000) :
    cfg.baseTimeoutSecs * 1000 / 2 ≤ calculateLifetime cfg rand ∧
    calculateLifetime cfg rand <
      cfg.baseTimeoutSecs * 1000 + cfg.baseTimeoutSecs * 1000 / 2 ∧
    cfg.baseTimeoutSecs * 1000 + cfg.baseTimeoutSecs * 1000 / 2 =
      3 * (cfg.baseTimeoutSecs * 1000) / 2 := by
  unfold calculateLifetime
  omega

/-- Claim C10 theorem.  Construction throws "Tried to create entry with
invalid state" for initial states PROBE, EXPIRED, DELAY and UNINITIALIZED
and succeeds for INCOMPLETE, REACHABLE and STALE; entering INCOMPLETE
assigns probesLeft = maxProbes − 1 while entering REACHABLE or STALE
assigns probesLeft = maxProbes (for STALE the immediately-run state machine
may then consume one probe on a hit). -/
theorem c10_construction_states (cfg : NConfig) (hit : Bool) (rand : Nat)
    (hmax : 1 ≤ cfg.maxProbes) :
    mkEntry cfg hit rand .PROBE =
      .error "Tried to create entry with invalid state" ∧
    mkEntry cfg hit rand .EXPIRED =
      .error "Tried to create entry with invalid state" ∧
    mkEntry cfg hit rand .DELAY =
      .error "Tried to create entry with invalid state" ∧
    mkEntry cfg hit rand .UNINIT =
      .error "Tried to create entry with invalid state" ∧
    (∃ e n, mkEntry cfg hit rand .INCOMPLETE = .ok (e, n) ∧
      e.probesLeft = cfg.maxProbes - 1) ∧
    (∃ e n, mkEntry cfg hit rand .REACHABLE = .ok (e, n) ∧
      e.probesLeft = cfg.maxProbes) ∧
    (∃ e n, mkEntry cfg hit rand .STALE = .ok (e, n)) ∧
    enterProbesLeft cfg .INCOMPLETE = some (cfg.maxProbes - 1) ∧
    enterProbesLeft cfg .REACHABLE = some cfg.maxProbes ∧
    enterProbesLeft cfg .STALE = some cfg.maxProbes := by
  refine ⟨by simp [mkEntry, enter, enterProbesLeft],
    by simp [mkEntry, enter, enterProbesLeft],
    by simp [mkEntry, enter, enterProbesLeft],
    by simp [mkEntry, enter, enterProbesLeft], ?_, ?_, ?_, rfl, rfl, rfl⟩
  · refine ⟨⟨.INCOMPLETE, cfg.maxProbes - 1, some 1000⟩, 0, ?_, rfl⟩
    simp [mkEntry, enter, enterProbesLeft, scheduleNextUpdate]
  · refine ⟨⟨.REACHABLE, cfg.maxProbes, some (calculateLifetime cfg rand)⟩,
      0, ?_, rfl⟩
    simp [mkEntry, enter, enterProbesLeft, scheduleNextUpdate]
  · cases hit with
    | false =>
        refine ⟨⟨.STALE, cfg.maxProbes, some (cfg.staleInterval * 1000)⟩,
          0, ?_⟩
        simp [mkEntry, enter, enterProbesLeft, runStateMachine,
          probeStaleEntryIfHit, scheduleNextUpdate]
    | true =>
        have hpos : 0 < cfg.maxProbes := hmax
        refine ⟨⟨.PROBE, cfg.maxProbes - 1, some 1000⟩, 1, ?_⟩
        simp [mkEntry, enter, enterProbesLeft, runStateMachine,
          probeStaleEntryIfHit, probeIfProbesLeft, hpos, scheduleNextUpdate]

/-- Claim C5 witness: from INCOMPLETE with probesLeft = 2 under maxProbes
= 3, three timer expirations reach EXPIRED with no timeout pending. -/
theorem c5_witness :
    1 ≤ ncfgW.maxProbes ∧
    (c5entW.state = .INCOMPLETE ∨ c5entW.state = .PROBE) ∧
    c5entW.probesLeft = ncfgW.maxProbes - 1 ∧
    c5entW.scheduled = some 1000 ∧
    (∃ e', nTicks ncfgW false 0 ncfgW.maxProbes c5entW =
        .ok (e', ncfgW.maxProbes - 1) ∧
      e'.state = .EXPIRED ∧ e'.scheduled = none ∧
      ∀ (hit' : Bool) (rand' : Nat),
        process ncfgW hit' rand' e' =
          .error "Found NeighborCacheEntry with invalid state") :=
  ⟨by decide, Or.inl rfl, by decide, rfl,
    c5_max_probes_ticks_expire ncfgW false 0 1000 c5entW (by decide)
      (Or.inl rfl) (by decide) rfl⟩

/-- Claim C6 witness: a freshly constructed REACHABLE entry is reachable
and satisfies the timer invariant. -/
theorem c6_witness :
    1 ≤ ncfgW.maxProbes ∧
    mkEntry ncfgW false 0 .REACHABLE = .ok (c6entW, 0) ∧
    (c6entW.scheduled.isSome = true ↔ c6entW.state ≠ .EXPIRED) :=
  ⟨by decide, by rfl,
    c6_timer_iff_not_expired ncfgW c6entW (by decide)
      (Reachable.create false 0 .REACHABLE c6entW 0 (by rfl))⟩

/-- Claim C7 witness at a concrete STALE entry. -/
theorem c7_witness :
    c7entW.state = .STALE ∧ 1 ≤ c7entW.probesLeft ∧
    c7entW.scheduled = some 30000 ∧
    (timerTick ncfgW true 0 c7entW =
      .ok ({ c7entW with
             state := .PROBE
             probesLeft := c7entW.probesLeft - 1
             scheduled := some 1000 }, 1) ∧
    timerTick ncfgW false 0 c7entW =
      .ok ({ c7entW with
             scheduled := some (ncfgW.staleInterval * 1000) }, 0)) :=
  ⟨rfl, by decide, rfl,
    c7_stale_tick ncfgW 0 30000 c7entW rfl (by decide) rfl⟩

/-- Claim C8 witness at base 30 s and draw 7 ms. -/
theorem c8_witness :
    7 < ncfgW.baseTimeoutSecs * 1000 ∧
    (ncfgW.baseTimeoutSecs * 1000 / 2 ≤ calculateLifetime ncfgW 7 ∧
    calculateLifetime ncfgW 7 <
      ncfgW.baseTimeoutSecs * 1000 + ncfgW.baseTimeoutSecs * 1000 / 2 ∧
    ncfgW.baseTimeoutSecs * 1000 + ncfgW.baseTimeoutSecs * 1000 / 2 =
      3 * (ncfgW.baseTimeoutSecs * 1000) / 2) :=
  ⟨by decide, c8_calculateLifetime_range ncfgW 7 (by decide)⟩

/-- Claim C10 witness at the concrete configuration. -/
theorem c10_witness :
    1 ≤ ncfgW.maxProbes ∧
    (mkEntry ncfgW false 0 .PROBE =
      .error "Tried to create entry with invalid state" ∧
    mkEntry ncfgW false 0 .EXPIRED =
      .error "Tried to create entry with invalid state" ∧
    mkEntry ncfgW false 0 .DELAY =
      .error "Tried to create entry with invalid state" ∧
    mkEntry ncfgW false 0 .UNINIT =
      .error "Tried to create entry with invalid state" ∧
    (∃ e n, mkEntry ncfgW false 0 .INCOMPLETE = .ok (e, n) ∧
      e.probesLeft = ncfgW.maxProbes - 1) ∧
    (∃ e n, mkEntry ncfgW false 0 .REACHABLE = .ok (e, n) ∧
      e.probesLeft = ncfgW.maxProbes) ∧
    (∃ e n, mkEntry ncfgW false 0 .STALE = .ok (e, n)) ∧
    enterProbesLeft ncfgW .INCOMPLETE = some (ncfgW.maxProbes - 1) ∧
    enterProbesLeft ncfgW .REACHABLE = some ncfgW.maxProbes ∧
    enterProbesLeft ncfgW .STALE = some ncfgW.maxProbes) :=
  ⟨by decide, c10_construction_states ncfgW false 0 (by decide)⟩

end Fboss
